import Mathlib

/-!
Shallow embedding, in Lean 4, of the geometric/numeric core of the
`gltf-exploder` library:

* `Octree.ts` — a bounded octree over 3D points (`Octree`, `OctreeNode`,
  `insert`, `findNearest`);
* `utils.ts` — the scalar `clamp` helper;
* `core/index.ts` (`ExploderCore`) — the explosion transform engine:
  `updateExplodedPositions` with its six `ExplosionMode` branches,
  `setProgress`, `setMultiplier`, `dispose`;
* `MeasurementFormatter.ts` — hysteresis-based unit formatting;
* `SnapDetector.ts` — vertex/edge snapping (`snapToVertex`, `snapToEdge`,
  `extractEdges`, `detectHoles`);
* `MeasurementTool.ts` — `buildSnapStructures`.

Numbers are modelled by `ℚ` (idealising IEEE doubles).  The square root —
the only non-rational primitive the translated code uses — is passed to the
definitions as an explicit function argument `sqrt : ℚ → ℚ`, and the host's
camera projection is abstracted as a screen-distance function `V3 → ℚ`,
matching the specification's statement that the core consumes only the
results of host projection.  All definitions are computable so that concrete
runs can be checked by `decide`/`rfl`.
-/

/- Mathlib marks the `Rat` field operations `@[irreducible]` for elaborator
performance; re-allow unfolding them so that concrete runs of the embedded
code can be checked by `decide`. -/
set_option allowUnsafeReducibility true in
attribute [semireducible] Rat.add Rat.mul Rat.sub Rat.div Rat.inv Rat.neg

/-- Three.js `Vector3` (named `Vec3` here; Mathlib already has a `Vector3`), with rational components. -/
structure Vec3 where
  x : ℚ
  y : ℚ
  z : ℚ
deriving DecidableEq, Repr

namespace Vec3

/-- Componentwise addition (`Vec3.add`). -/
def add (a b : Vec3) : Vec3 := ⟨a.x + b.x, a.y + b.y, a.z + b.z⟩

/-- Componentwise subtraction (`Vec3.subVectors` / `sub`). -/
def sub (a b : Vec3) : Vec3 := ⟨a.x - b.x, a.y - b.y, a.z - b.z⟩

/-- Scalar multiplication (`Vec3.multiplyScalar`). -/
def smul (c : ℚ) (a : Vec3) : Vec3 := ⟨c * a.x, c * a.y, c * a.z⟩

/-- Dot product (`Vec3.dot`). -/
def dot (a b : Vec3) : ℚ := a.x * b.x + a.y * b.y + a.z * b.z

/-- Squared distance (`Vec3.distanceToSquared`). -/
def distanceToSquared (a b : Vec3) : ℚ :=
  (a.x - b.x) ^ 2 + (a.y - b.y) ^ 2 + (a.z - b.z) ^ 2

instance : Add Vec3 := ⟨add⟩
instance : Sub Vec3 := ⟨sub⟩
instance : SMul ℚ Vec3 := ⟨smul⟩

theorem add_def (a b : Vec3) : a + b = ⟨a.x + b.x, a.y + b.y, a.z + b.z⟩ := rfl
theorem sub_def (a b : Vec3) : a - b = ⟨a.x - b.x, a.y - b.y, a.z - b.z⟩ := rfl
theorem smul_def (c : ℚ) (a : Vec3) : c • a = ⟨c * a.x, c * a.y, c * a.z⟩ := rfl

end Vec3

/-- `utils.ts` `clamp(value, min, max) = Math.max(min, Math.min(max, value))`. -/
def clamp (value mn mx : ℚ) : ℚ := max mn (min mx value)

/-- Three.js `Box3`: an axis-aligned box given by two corner vectors. -/
structure Box3 where
  min : Vec3
  max : Vec3
deriving DecidableEq, Repr

namespace Box3

/-- `Box3.containsPoint` — inclusive on all six faces. -/
def containsPoint (b : Box3) (p : Vec3) : Bool :=
  b.min.x ≤ p.x && p.x ≤ b.max.x &&
  (b.min.y ≤ p.y && p.y ≤ b.max.y) &&
  (b.min.z ≤ p.z && p.z ≤ b.max.z)

/-- `Box3.getCenter` — the midpoint of the two corners. -/
def getCenter (b : Box3) : Vec3 :=
  ⟨(b.min.x + b.max.x) / 2, (b.min.y + b.max.y) / 2, (b.min.z + b.max.z) / 2⟩

/-- `Box3.clampPoint` — componentwise clamp of a point into the box. -/
def clampPoint (b : Box3) (p : Vec3) : Vec3 :=
  ⟨clamp p.x b.min.x b.max.x, clamp p.y b.min.y b.max.y, clamp p.z b.min.z b.max.z⟩

/-- `Box3.expandByScalar` — grow the box by `s` on every side. -/
def expandByScalar (b : Box3) (s : ℚ) : Box3 :=
  ⟨⟨b.min.x - s, b.min.y - s, b.min.z - s⟩, ⟨b.max.x + s, b.max.y + s, b.max.z + s⟩⟩

/-- `Box3.expandByPoint` — enlarge the box to contain `p`. -/
def expandByPoint (b : Box3) (p : Vec3) : Box3 :=
  ⟨⟨Min.min b.min.x p.x, Min.min b.min.y p.y, Min.min b.min.z p.z⟩,
   ⟨Max.max b.max.x p.x, Max.max b.max.y p.y, Max.max b.max.z p.z⟩⟩

/-- The eight sub-boxes produced by `OctreeNode.subdivide`, in the source's
child order (index bit 0 selects the x half, bit 1 the y half, bit 2 the z
half). -/
def subdivideChild (b : Box3) (i : Fin 8) : Box3 :=
  let c := b.getCenter
  match i with
  | 0 => ⟨⟨b.min.x, b.min.y, b.min.z⟩, ⟨c.x, c.y, c.z⟩⟩
  | 1 => ⟨⟨c.x, b.min.y, b.min.z⟩, ⟨b.max.x, c.y, c.z⟩⟩
  | 2 => ⟨⟨b.min.x, c.y, b.min.z⟩, ⟨c.x, b.max.y, c.z⟩⟩
  | 3 => ⟨⟨c.x, c.y, b.min.z⟩, ⟨b.max.x, b.max.y, c.z⟩⟩
  | 4 => ⟨⟨b.min.x, b.min.y, c.z⟩, ⟨c.x, c.y, b.max.z⟩⟩
  | 5 => ⟨⟨c.x, b.min.y, c.z⟩, ⟨b.max.x, c.y, b.max.z⟩⟩
  | 6 => ⟨⟨b.min.x, c.y, c.z⟩, ⟨c.x, b.max.y, b.max.z⟩⟩
  | 7 => ⟨⟨c.x, c.y, c.z⟩, ⟨b.max.x, b.max.y, b.max.z⟩⟩

end Box3

/-- `OctreeData`: a stored point together with its associated datum
(the TypeScript `data: any` field, made a type parameter). -/
structure OctreeData (α : Type) where
  position : Vec3
  data : α
deriving DecidableEq, Repr

/-- An octree node.  The index is the remaining subdivision budget:
a node of index `n + 1` may still subdivide, a node of index `0` is at
`maxDepth` (the source guards subdivision with `node.depth < maxDepth`;
for a root of index `maxDepth` the two formulations agree, with
`depth = maxDepth - index`).  A non-leaf node has exactly eight children,
as in `OctreeNode.subdivide`. -/
inductive OctreeNode (α : Type) : ℕ → Type where
  | leaf (bounds : Box3) (points : List (OctreeData α)) : OctreeNode α n
  | node (bounds : Box3) (children : Fin 8 → OctreeNode α n) : OctreeNode α (n + 1)

namespace OctreeNode

/-- The bounds stored on a node. -/
def boundsOf : (n : ℕ) → OctreeNode α n → Box3
  | _, .leaf b _ => b
  | _ + 1, .node b _ => b

/-- All points stored in a subtree, children visited in index order. -/
def storedPoints : (n : ℕ) → OctreeNode α n → List (OctreeData α)
  | _, .leaf _ pts => pts
  | m + 1, .node _ c => ((List.finRange 8).map fun i => storedPoints m (c i)).flatten

end OctreeNode

/-- `Octree.insertIntoNode`: ignore points outside the node's bounds; append
to a leaf, subdividing and redistributing (every point is offered to every
child, in point order) when the leaf exceeds `K` points and depth allows. -/
def insertIntoNode (K : ℕ) : (n : ℕ) → OctreeNode α n → OctreeData α → OctreeNode α n
  | 0, .leaf b pts, p =>
      if b.containsPoint p.position then .leaf b (pts ++ [p]) else .leaf b pts
  | m + 1, .leaf b pts, p =>
      if b.containsPoint p.position then
        let pts' := pts ++ [p]
        if pts'.length > K then
          .node b fun i =>
            pts'.foldl (fun t q => insertIntoNode K m t q) (.leaf (b.subdivideChild i) [])
        else .leaf b pts'
      else .leaf b pts
  | m + 1, .node b c, p =>
      if b.containsPoint p.position then .node b fun i => insertIntoNode K m (c i) p
      else .node b c

/-- `Octree.searchNode`: prune a node whose bounds lie farther than the
query radius (via `clampPoint`), report a leaf's in-range points, recurse
into children in order. -/
def searchNode (qp : Vec3) (radiusSq : ℚ) :
    (n : ℕ) → OctreeNode α n → List (OctreeData α) → List (OctreeData α)
  | _, .leaf b pts, results =>
      if radiusSq < ((b.clampPoint qp).distanceToSquared qp) then results
      else results ++ pts.filter fun d => d.position.distanceToSquared qp ≤ radiusSq
  | m + 1, .node b c, results =>
      if radiusSq < ((b.clampPoint qp).distanceToSquared qp) then results
      else (List.finRange 8).foldl (fun acc i => searchNode qp radiusSq m (c i) acc) results

/-- The `Octree` class: root node plus the two construction parameters
(defaults in the source: `maxDepth = 8`, `maxPointsPerNode = 8`). -/
structure Octree (α : Type) where
  maxDepth : ℕ
  maxPointsPerNode : ℕ
  root : OctreeNode α maxDepth

namespace Octree

/-- The `Octree` constructor: a fresh root leaf over the given bounds. -/
def create (α : Type) (bounds : Box3) (maxDepth maxPointsPerNode : ℕ) : Octree α :=
  ⟨maxDepth, maxPointsPerNode, .leaf bounds []⟩

/-- `Octree.insert(position, data)`. -/
def insert (t : Octree α) (position : Vec3) (data : α) : Octree α :=
  { t with root := insertIntoNode t.maxPointsPerNode t.maxDepth t.root ⟨position, data⟩ }

/-- The comparator of `findNearest`'s final `sort`: ascending squared
distance to the query point. -/
def distLE (point : Vec3) (a b : OctreeData α) : Prop :=
  a.position.distanceToSquared point ≤ b.position.distanceToSquared point

instance (point : Vec3) : DecidableRel (distLE (α := α) point) := fun _ _ =>
  inferInstanceAs (Decidable (_ ≤ _))

instance (point : Vec3) : IsTotal (OctreeData α) (distLE point) :=
  ⟨fun _ _ => le_total _ _⟩

instance (point : Vec3) : IsTrans (OctreeData α) (distLE point) :=
  ⟨fun _ _ _ => le_trans⟩

/-- `Octree.findNearest(point, radius)`: collect all stored points within
`radius` of `point`, then sort ascending by distance. -/
def findNearest (t : Octree α) (point : Vec3) (radius : ℚ) : List (OctreeData α) :=
  let radiusSq := radius * radius
  let results := searchNode point radiusSq t.maxDepth t.root []
  List.insertionSort (distLE point) results

end Octree

/-- Building an octree by inserting a list of points in order (the pattern
used by `buildSnapStructures` and the octree tests). -/
def buildOctree (α : Type) (bounds : Box3) (maxDepth maxPointsPerNode : ℕ)
    (ps : List (OctreeData α)) : Octree α :=
  ps.foldl (fun t p => t.insert p.position p.data) (Octree.create α bounds maxDepth maxPointsPerNode)

/-! ### Basic equations and structural lemmas for the octree embedding -/

theorem storedPoints_leaf (n : ℕ) (b : Box3) (pts : List (OctreeData α)) :
    OctreeNode.storedPoints n (.leaf b pts) = pts := by
  cases n <;> rfl

theorem storedPoints_node (m : ℕ) (b : Box3) (c : Fin 8 → OctreeNode α m) :
    OctreeNode.storedPoints (m + 1) (.node b c) =
      ((List.finRange 8).map fun i => OctreeNode.storedPoints m (c i)).flatten := rfl

theorem mem_storedPoints_node {m : ℕ} {b : Box3} {c : Fin 8 → OctreeNode α m}
    {q : OctreeData α} :
    q ∈ OctreeNode.storedPoints (m + 1) (.node b c) ↔
      ∃ i, q ∈ OctreeNode.storedPoints m (c i) := by
  simp [storedPoints_node, List.mem_flatten, List.mem_map]

theorem boundsOf_leaf (n : ℕ) (b : Box3) (pts : List (OctreeData α)) :
    OctreeNode.boundsOf n (.leaf b pts) = b := by
  cases n <;> rfl

theorem boundsOf_node (m : ℕ) (b : Box3) (c : Fin 8 → OctreeNode α m) :
    OctreeNode.boundsOf (m + 1) (.node b c) = b := rfl

theorem boundsOf_insertIntoNode (K : ℕ) :
    ∀ (n : ℕ) (t : OctreeNode α n) (p : OctreeData α),
      OctreeNode.boundsOf n (insertIntoNode K n t p) = OctreeNode.boundsOf n t := by
  intro n t p
  cases n with
  | zero =>
    cases t with
    | leaf b pts =>
      by_cases hc : b.containsPoint p.position <;>
        simp [insertIntoNode, hc, boundsOf_leaf]
  | succ m =>
    cases t with
    | leaf b pts =>
      by_cases hc : b.containsPoint p.position
      · by_cases hl : K < pts.length + 1 <;>
          simp [insertIntoNode, hc, hl, boundsOf_leaf, boundsOf_node]
      · simp [insertIntoNode, hc, boundsOf_leaf]
    | node b c =>
      by_cases hc : b.containsPoint p.position <;>
        simp [insertIntoNode, hc, boundsOf_node]

theorem boundsOf_foldl_insert (K m : ℕ) (ps : List (OctreeData α)) :
    ∀ t : OctreeNode α m,
      OctreeNode.boundsOf m (ps.foldl (fun t q => insertIntoNode K m t q) t) =
        OctreeNode.boundsOf m t := by
  induction ps with
  | nil => intro t; rfl
  | cons p ps ih =>
    intro t
    simpa [boundsOf_insertIntoNode] using ih (insertIntoNode K m t p)

/-- Unfolding `containsPoint` into its six inequalities. -/
theorem containsPoint_iff (b : Box3) (p : Vec3) :
    b.containsPoint p = true ↔
      (b.min.x ≤ p.x ∧ p.x ≤ b.max.x) ∧ (b.min.y ≤ p.y ∧ p.y ≤ b.max.y) ∧
        (b.min.z ≤ p.z ∧ p.z ≤ b.max.z) := by
  simp [Box3.containsPoint, and_assoc]

theorem subdivideChild_eq (b : Box3) :
    (b.subdivideChild 0 = ⟨⟨b.min.x, b.min.y, b.min.z⟩,
        ⟨(b.min.x + b.max.x) / 2, (b.min.y + b.max.y) / 2, (b.min.z + b.max.z) / 2⟩⟩) ∧
    (b.subdivideChild 1 = ⟨⟨(b.min.x + b.max.x) / 2, b.min.y, b.min.z⟩,
        ⟨b.max.x, (b.min.y + b.max.y) / 2, (b.min.z + b.max.z) / 2⟩⟩) ∧
    (b.subdivideChild 2 = ⟨⟨b.min.x, (b.min.y + b.max.y) / 2, b.min.z⟩,
        ⟨(b.min.x + b.max.x) / 2, b.max.y, (b.min.z + b.max.z) / 2⟩⟩) ∧
    (b.subdivideChild 3 = ⟨⟨(b.min.x + b.max.x) / 2, (b.min.y + b.max.y) / 2, b.min.z⟩,
        ⟨b.max.x, b.max.y, (b.min.z + b.max.z) / 2⟩⟩) ∧
    (b.subdivideChild 4 = ⟨⟨b.min.x, b.min.y, (b.min.z + b.max.z) / 2⟩,
        ⟨(b.min.x + b.max.x) / 2, (b.min.y + b.max.y) / 2, b.max.z⟩⟩) ∧
    (b.subdivideChild 5 = ⟨⟨(b.min.x + b.max.x) / 2, b.min.y, (b.min.z + b.max.z) / 2⟩,
        ⟨b.max.x, (b.min.y + b.max.y) / 2, b.max.z⟩⟩) ∧
    (b.subdivideChild 6 = ⟨⟨b.min.x, (b.min.y + b.max.y) / 2, (b.min.z + b.max.z) / 2⟩,
        ⟨(b.min.x + b.max.x) / 2, b.max.y, b.max.z⟩⟩) ∧
    (b.subdivideChild 7 = ⟨⟨(b.min.x + b.max.x) / 2, (b.min.y + b.max.y) / 2,
        (b.min.z + b.max.z) / 2⟩, ⟨b.max.x, b.max.y, b.max.z⟩⟩) :=
  ⟨rfl, rfl, rfl, rfl, rfl, rfl, rfl, rfl⟩

/-- Every point of a box lies in at least one of the eight subdivision
children (choosing the half by comparing with the center coordinate). -/
theorem exists_subdivideChild_containsPoint (b : Box3) (x : Vec3)
    (h : b.containsPoint x = true) :
    ∃ i : Fin 8, (b.subdivideChild i).containsPoint x = true := by
  rw [containsPoint_iff] at h
  obtain ⟨⟨hx1, hx2⟩, ⟨hy1, hy2⟩, hz1, hz2⟩ := h
  obtain ⟨e0, e1, e2, e3, e4, e5, e6, e7⟩ := subdivideChild_eq b
  rcases le_total x.x ((b.min.x + b.max.x) / 2) with hx | hx <;>
    rcases le_total x.y ((b.min.y + b.max.y) / 2) with hy | hy <;>
      rcases le_total x.z ((b.min.z + b.max.z) / 2) with hz | hz
  · refine ⟨0, ?_⟩
    rw [e0, containsPoint_iff]
    exact ⟨⟨hx1, hx⟩, ⟨hy1, hy⟩, hz1, hz⟩
  · refine ⟨4, ?_⟩
    rw [e4, containsPoint_iff]
    exact ⟨⟨hx1, hx⟩, ⟨hy1, hy⟩, hz, hz2⟩
  · refine ⟨2, ?_⟩
    rw [e2, containsPoint_iff]
    exact ⟨⟨hx1, hx⟩, ⟨hy, hy2⟩, hz1, hz⟩
  · refine ⟨6, ?_⟩
    rw [e6, containsPoint_iff]
    exact ⟨⟨hx1, hx⟩, ⟨hy, hy2⟩, hz, hz2⟩
  · refine ⟨1, ?_⟩
    rw [e1, containsPoint_iff]
    exact ⟨⟨hx, hx2⟩, ⟨hy1, hy⟩, hz1, hz⟩
  · refine ⟨5, ?_⟩
    rw [e5, containsPoint_iff]
    exact ⟨⟨hx, hx2⟩, ⟨hy1, hy⟩, hz, hz2⟩
  · refine ⟨3, ?_⟩
    rw [e3, containsPoint_iff]
    exact ⟨⟨hx, hx2⟩, ⟨hy, hy2⟩, hz1, hz⟩
  · refine ⟨7, ?_⟩
    rw [e7, containsPoint_iff]
    exact ⟨⟨hx, hx2⟩, ⟨hy, hy2⟩, hz, hz2⟩

/-- A subdivision child is contained in its parent box. -/
theorem containsPoint_of_subdivideChild (b : Box3) (i : Fin 8) (x : Vec3)
    (h : (b.subdivideChild i).containsPoint x = true) : b.containsPoint x = true := by
  match i with
  | 0 =>
    rw [(subdivideChild_eq b).1, containsPoint_iff] at h
    rw [containsPoint_iff]
    obtain ⟨⟨hx1, hx2⟩, ⟨hy1, hy2⟩, hz1, hz2⟩ := h
    exact ⟨⟨by linarith, by linarith⟩, ⟨by linarith, by linarith⟩, by linarith, by linarith⟩
  | 1 =>
    rw [(subdivideChild_eq b).2.1, containsPoint_iff] at h
    rw [containsPoint_iff]
    obtain ⟨⟨hx1, hx2⟩, ⟨hy1, hy2⟩, hz1, hz2⟩ := h
    exact ⟨⟨by linarith, by linarith⟩, ⟨by linarith, by linarith⟩, by linarith, by linarith⟩
  | 2 =>
    rw [(subdivideChild_eq b).2.2.1, containsPoint_iff] at h
    rw [containsPoint_iff]
    obtain ⟨⟨hx1, hx2⟩, ⟨hy1, hy2⟩, hz1, hz2⟩ := h
    exact ⟨⟨by linarith, by linarith⟩, ⟨by linarith, by linarith⟩, by linarith, by linarith⟩
  | 3 =>
    rw [(subdivideChild_eq b).2.2.2.1, containsPoint_iff] at h
    rw [containsPoint_iff]
    obtain ⟨⟨hx1, hx2⟩, ⟨hy1, hy2⟩, hz1, hz2⟩ := h
    exact ⟨⟨by linarith, by linarith⟩, ⟨by linarith, by linarith⟩, by linarith, by linarith⟩
  | 4 =>
    rw [(subdivideChild_eq b).2.2.2.2.1, containsPoint_iff] at h
    rw [containsPoint_iff]
    obtain ⟨⟨hx1, hx2⟩, ⟨hy1, hy2⟩, hz1, hz2⟩ := h
    exact ⟨⟨by linarith, by linarith⟩, ⟨by linarith, by linarith⟩, by linarith, by linarith⟩
  | 5 =>
    rw [(subdivideChild_eq b).2.2.2.2.2.1, containsPoint_iff] at h
    rw [containsPoint_iff]
    obtain ⟨⟨hx1, hx2⟩, ⟨hy1, hy2⟩, hz1, hz2⟩ := h
    exact ⟨⟨by linarith, by linarith⟩, ⟨by linarith, by linarith⟩, by linarith, by linarith⟩
  | 6 =>
    rw [(subdivideChild_eq b).2.2.2.2.2.2.1, containsPoint_iff] at h
    rw [containsPoint_iff]
    obtain ⟨⟨hx1, hx2⟩, ⟨hy1, hy2⟩, hz1, hz2⟩ := h
    exact ⟨⟨by linarith, by linarith⟩, ⟨by linarith, by linarith⟩, by linarith, by linarith⟩
  | 7 =>
    rw [(subdivideChild_eq b).2.2.2.2.2.2.2, containsPoint_iff] at h
    rw [containsPoint_iff]
    obtain ⟨⟨hx1, hx2⟩, ⟨hy1, hy2⟩, hz1, hz2⟩ := h
    exact ⟨⟨by linarith, by linarith⟩, ⟨by linarith, by linarith⟩, by linarith, by linarith⟩

/-! ### Well-formedness of octrees reachable through the `Octree` API -/

/-- Structural invariant maintained by `insertIntoNode`: a leaf's points lie
inside its bounds, and a non-leaf's children carry exactly the eight
subdivision boxes of its own bounds. -/
def WF : (n : ℕ) → OctreeNode α n → Prop
  | _, .leaf b pts => ∀ p ∈ pts, b.containsPoint p.position = true
  | m + 1, .node b c =>
      (∀ i, OctreeNode.boundsOf m (c i) = b.subdivideChild i) ∧ ∀ i, WF m (c i)

theorem WF_leaf_iff (n : ℕ) (b : Box3) (pts : List (OctreeData α)) :
    WF n (.leaf b pts) ↔ ∀ p ∈ pts, b.containsPoint p.position = true := by
  cases n <;> rfl

theorem WF_node_iff (m : ℕ) (b : Box3) (c : Fin 8 → OctreeNode α m) :
    WF (m + 1) (.node b c) ↔
      (∀ i, OctreeNode.boundsOf m (c i) = b.subdivideChild i) ∧ ∀ i, WF m (c i) :=
  Iff.rfl

/-- In a well-formed subtree, every stored point is inside the subtree's
bounds. -/
theorem stored_containsPoint :
    ∀ (n : ℕ) (t : OctreeNode α n), WF n t →
      ∀ q ∈ OctreeNode.storedPoints n t,
        (OctreeNode.boundsOf n t).containsPoint q.position = true := by
  intro n
  induction n with
  | zero =>
    intro t hwf q hq
    cases t with
    | leaf b pts =>
      rw [storedPoints_leaf] at hq
      rw [boundsOf_leaf]
      exact (WF_leaf_iff 0 b pts).1 hwf q hq
  | succ m ih =>
    intro t hwf q hq
    cases t with
    | leaf b pts =>
      rw [storedPoints_leaf] at hq
      rw [boundsOf_leaf]
      exact (WF_leaf_iff (m + 1) b pts).1 hwf q hq
    | node b c =>
      obtain ⟨hb, hc⟩ := (WF_node_iff m b c).1 hwf
      obtain ⟨i, hi⟩ := mem_storedPoints_node.1 hq
      have := ih (c i) (hc i) q hi
      rw [hb i] at this
      rw [boundsOf_node]
      exact containsPoint_of_subdivideChild b i q.position this

/-- `insertIntoNode` adds nothing but the inserted point. -/
theorem stored_insertIntoNode_sub (K : ℕ) :
    ∀ (n : ℕ) (t : OctreeNode α n) (p q : OctreeData α),
      q ∈ OctreeNode.storedPoints n (insertIntoNode K n t p) →
        q ∈ OctreeNode.storedPoints n t ∨ q = p := by
  intro n
  induction n with
  | zero =>
    intro t p q h
    cases t with
    | leaf b pts =>
      by_cases hc : b.containsPoint p.position <;>
        simp only [insertIntoNode, hc, if_true, if_false, Bool.false_eq_true,
          storedPoints_leaf, List.mem_append, List.mem_singleton] at h
      · tauto
      · exact Or.inl h
  | succ m ih =>
    have hfold : ∀ (ps : List (OctreeData α)) (t : OctreeNode α m) (q : OctreeData α),
        q ∈ OctreeNode.storedPoints m (ps.foldl (fun t r => insertIntoNode K m t r) t) →
          q ∈ OctreeNode.storedPoints m t ∨ q ∈ ps := by
      intro ps
      induction ps with
      | nil => intro t q h; exact Or.inl h
      | cons r rs ihr =>
        intro t q h
        rcases ihr (insertIntoNode K m t r) q h with h' | h'
        · rcases ih t r q h' with h'' | h''
          · exact Or.inl h''
          · exact Or.inr (by simp [h''])
        · exact Or.inr (by simp [h'])
    intro t p q h
    cases t with
    | leaf b pts =>
      by_cases hc : b.containsPoint p.position
      · by_cases hl : K < pts.length + 1
        · simp only [insertIntoNode, hc, if_true, List.length_append,
            List.length_singleton, hl, gt_iff_lt, ite_true, ite_false] at h
          obtain ⟨i, hi⟩ := mem_storedPoints_node.1 h
          rcases hfold (pts ++ [p]) (.leaf (b.subdivideChild i) []) q hi with h' | h'
          · rw [storedPoints_leaf] at h'; cases h'
          · rw [storedPoints_leaf]
            rcases List.mem_append.1 h' with h'' | h''
            · exact Or.inl h''
            · exact Or.inr (List.mem_singleton.1 h'')
        · simp only [insertIntoNode, hc, if_true, List.length_append,
            List.length_singleton, hl, gt_iff_lt, ite_true, ite_false] at h
          rw [storedPoints_leaf] at h ⊢
          rcases List.mem_append.1 h with h'' | h''
          · exact Or.inl h''
          · exact Or.inr (List.mem_singleton.1 h'')
      · simp only [insertIntoNode, hc, Bool.false_eq_true, if_false] at h
        exact Or.inl h
    | node b c =>
      by_cases hc : b.containsPoint p.position
      · simp only [insertIntoNode, hc, if_true] at h
        obtain ⟨i, hi⟩ := mem_storedPoints_node.1 h
        rcases ih (c i) p q hi with h' | h'
        · exact Or.inl (mem_storedPoints_node.2 ⟨i, h'⟩)
        · exact Or.inr h'
      · simp only [insertIntoNode, hc, Bool.false_eq_true, if_false] at h
        exact Or.inl h

/-- Insertion preserves the octree invariant. -/
theorem WF_insertIntoNode (K : ℕ) :
    ∀ (n : ℕ) (t : OctreeNode α n) (p : OctreeData α), WF n t → WF n (insertIntoNode K n t p) := by
  intro n
  induction n with
  | zero =>
    intro t p hwf
    cases t with
    | leaf b pts =>
      by_cases hc : b.containsPoint p.position
      · simp only [insertIntoNode, hc, ite_true]
        rw [WF_leaf_iff] at hwf ⊢
        intro q hq
        rcases List.mem_append.1 hq with h | h
        · exact hwf q h
        · rw [List.mem_singleton.1 h]; exact hc
      · simpa [insertIntoNode, hc] using hwf
  | succ m ih =>
    have hfold : ∀ (ps : List (OctreeData α)) (t : OctreeNode α m),
        WF m t → WF m (ps.foldl (fun t r => insertIntoNode K m t r) t) := by
      intro ps
      induction ps with
      | nil => intro t h; exact h
      | cons r rs ihr => intro t h; exact ihr (insertIntoNode K m t r) (ih t r h)
    intro t p hwf
    cases t with
    | leaf b pts =>
      by_cases hc : b.containsPoint p.position
      · have hmem : ∀ q ∈ pts ++ [p], b.containsPoint q.position = true := by
          intro q hq
          rcases List.mem_append.1 hq with h | h
          · exact (WF_leaf_iff (m + 1) b pts).1 hwf q h
          · rw [List.mem_singleton.1 h]; exact hc
        by_cases hl : K < pts.length + 1
        · simp only [insertIntoNode, hc, ite_true, List.length_append,
            List.length_singleton, gt_iff_lt, hl]
          rw [WF_node_iff]
          constructor
          · intro i
            rw [boundsOf_foldl_insert, boundsOf_leaf]
          · intro i
            exact hfold (pts ++ [p]) (.leaf (b.subdivideChild i) [])
              ((WF_leaf_iff m _ _).2 (by intro q hq; cases hq))
        · simp only [insertIntoNode, hc, ite_true, List.length_append,
            List.length_singleton, gt_iff_lt, hl, ite_false]
          exact (WF_leaf_iff (m + 1) b _).2 hmem
      · simpa [insertIntoNode, hc] using hwf
    | node b c =>
      obtain ⟨hb, hcw⟩ := (WF_node_iff m b c).1 hwf
      by_cases hc : b.containsPoint p.position
      · simp only [insertIntoNode, hc, ite_true]
        rw [WF_node_iff]
        exact ⟨fun i => by rw [boundsOf_insertIntoNode]; exact hb i,
          fun i => ih (c i) p (hcw i)⟩
      · simpa [insertIntoNode, hc] using hwf

/-- Insertion keeps every stored point, and stores the inserted point
whenever it lies inside the node's bounds. -/
theorem stored_insertIntoNode_mem (K : ℕ) :
    ∀ (n : ℕ) (t : OctreeNode α n), WF n t → ∀ p q : OctreeData α,
      ((q = p ∧ (OctreeNode.boundsOf n t).containsPoint q.position = true) ∨
        q ∈ OctreeNode.storedPoints n t) →
      q ∈ OctreeNode.storedPoints n (insertIntoNode K n t p) := by
  intro n
  induction n with
  | zero =>
    intro t hwf p q hq
    cases t with
    | leaf b pts =>
      rcases hq with ⟨rfl, hin⟩ | hmem
      · rw [boundsOf_leaf] at hin
        simp [insertIntoNode, hin, storedPoints_leaf]
      · rw [storedPoints_leaf] at hmem
        by_cases hc : b.containsPoint p.position <;>
          simp [insertIntoNode, hc, storedPoints_leaf, hmem]
  | succ m ih =>
    have hfold : ∀ (ps : List (OctreeData α)) (t : OctreeNode α m) (q : OctreeData α),
        WF m t →
        (q ∈ OctreeNode.storedPoints m t ∨
          (q ∈ ps ∧ (OctreeNode.boundsOf m t).containsPoint q.position = true)) →
        q ∈ OctreeNode.storedPoints m (ps.foldl (fun t r => insertIntoNode K m t r) t) := by
      intro ps
      induction ps with
      | nil =>
        intro t q hwf hq
        rcases hq with h | ⟨h, _⟩
        · exact h
        · cases h
      | cons r rs ihr =>
        intro t q hwf hq
        have hwf' : WF m (insertIntoNode K m t r) := WF_insertIntoNode K m t r hwf
        rcases hq with h | ⟨h, hin⟩
        · exact ihr (insertIntoNode K m t r) q hwf'
            (Or.inl (ih t hwf r q (Or.inr h)))
        · rcases List.mem_cons.1 h with rfl | h'
          · exact ihr (insertIntoNode K m t q) q hwf'
              (Or.inl (ih t hwf q q (Or.inl ⟨rfl, hin⟩)))
          · exact ihr (insertIntoNode K m t r) q hwf'
              (Or.inr ⟨h', by rwa [boundsOf_insertIntoNode]⟩)
    intro t hwf p q hq
    cases t with
    | leaf b pts =>
      rw [boundsOf_leaf] at hq
      rw [storedPoints_leaf] at hq
      have hq' : q ∈ pts ++ [p] ∧ b.containsPoint q.position = true := by
        rcases hq with ⟨rfl, hin⟩ | hmem
        · exact ⟨List.mem_append.2 (Or.inr (List.mem_singleton.2 rfl)), hin⟩
        · exact ⟨List.mem_append.2 (Or.inl hmem),
            (WF_leaf_iff (m + 1) b pts).1 hwf q hmem⟩
      by_cases hc : b.containsPoint p.position
      · by_cases hl : K < pts.length + 1
        · simp only [insertIntoNode, hc, ite_true, List.length_append,
            List.length_singleton, gt_iff_lt, hl]
          obtain ⟨i, hi⟩ := exists_subdivideChild_containsPoint b q.position hq'.2
          refine mem_storedPoints_node.2 ⟨i, ?_⟩
          refine hfold (pts ++ [p]) (.leaf (b.subdivideChild i) []) q
            ((WF_leaf_iff m _ _).2 (by intro r hr; cases hr)) ?_
          exact Or.inr ⟨hq'.1, by rw [boundsOf_leaf]; exact hi⟩
        · simp only [insertIntoNode, hc, ite_true, List.length_append,
            List.length_singleton, gt_iff_lt, hl, ite_false]
          rw [storedPoints_leaf]
          exact hq'.1
      · rcases hq with ⟨rfl, hin⟩ | hmem
        · exact absurd hin hc
        · simpa [insertIntoNode, hc, storedPoints_leaf] using hmem
    | node b c =>
      obtain ⟨hb, hcw⟩ := (WF_node_iff m b c).1 hwf
      rcases hq with ⟨rfl, hin⟩ | hmem
      · rw [boundsOf_node] at hin
        simp only [insertIntoNode, hin, ite_true]
        obtain ⟨i, hi⟩ := exists_subdivideChild_containsPoint b q.position hin
        refine mem_storedPoints_node.2 ⟨i, ?_⟩
        exact ih (c i) (hcw i) q q (Or.inl ⟨rfl, by rw [hb i]; exact hi⟩)
      · by_cases hc : b.containsPoint p.position
        · simp only [insertIntoNode, hc, ite_true]
          obtain ⟨i, hi⟩ := mem_storedPoints_node.1 hmem
          exact mem_storedPoints_node.2 ⟨i, ih (c i) (hcw i) p q (Or.inr hi)⟩
        · simpa [insertIntoNode, hc] using hmem

/-- Scalar fact behind prune safety: the clamped coordinate is at least as
close to the query as any coordinate inside the interval. -/
theorem sq_clamp_le (mn mx v q : ℚ) (h1 : mn ≤ v) (h2 : v ≤ mx) :
    (clamp q mn mx - q) ^ 2 ≤ (v - q) ^ 2 := by
  rcases le_total q mn with h | h
  · rw [clamp, min_eq_right (h.trans (h1.trans h2)), max_eq_left h]
    nlinarith
  · rcases le_total q mx with h' | h'
    · rw [clamp, min_eq_right h', max_eq_right h]
      simpa using sq_nonneg (v - q)
    · rw [clamp, min_eq_left h', max_eq_right (h1.trans h2)]
      nlinarith

/-- Prune safety: the clamped point of a box is at least as close to the
query as any point of the box. -/
theorem clampPoint_distSq_le (b : Box3) (x q : Vec3) (h : b.containsPoint x = true) :
    (b.clampPoint q).distanceToSquared q ≤ x.distanceToSquared q := by
  rw [containsPoint_iff] at h
  obtain ⟨⟨hx1, hx2⟩, ⟨hy1, hy2⟩, hz1, hz2⟩ := h
  have h1 := sq_clamp_le b.min.x b.max.x x.x q.x hx1 hx2
  have h2 := sq_clamp_le b.min.y b.max.y x.y q.y hy1 hy2
  have h3 := sq_clamp_le b.min.z b.max.z x.z q.z hz1 hz2
  simp only [Box3.clampPoint, Vec3.distanceToSquared]
  linarith

/-- `searchNode` reports exactly the in-range stored points of a well-formed
subtree (appended to the accumulator), with no loss from pruning. -/
theorem mem_searchNode (qp : Vec3) (rSq : ℚ) :
    ∀ (n : ℕ) (t : OctreeNode α n), WF n t →
      ∀ (acc : List (OctreeData α)) (q : OctreeData α),
        (q ∈ searchNode qp rSq n t acc ↔
          q ∈ acc ∨ (q ∈ OctreeNode.storedPoints n t ∧
            q.position.distanceToSquared qp ≤ rSq)) := by
  intro n
  induction n with
  | zero =>
    intro t hwf acc q
    cases t with
    | leaf b pts =>
      by_cases hp : rSq < (b.clampPoint qp).distanceToSquared qp
      · simp only [searchNode, hp, ite_true, storedPoints_leaf]
        constructor
        · exact Or.inl
        · rintro (h | ⟨hq, hd⟩)
          · exact h
          · have := clampPoint_distSq_le b q.position qp
              ((WF_leaf_iff 0 b pts).1 hwf q hq)
            linarith
      · simp [searchNode, hp, storedPoints_leaf, List.mem_append, List.mem_filter]
  | succ m ih =>
    intro t hwf acc q
    cases t with
    | leaf b pts =>
      by_cases hp : rSq < (b.clampPoint qp).distanceToSquared qp
      · simp only [searchNode, hp, ite_true, storedPoints_leaf]
        constructor
        · exact Or.inl
        · rintro (h | ⟨hq, hd⟩)
          · exact h
          · have := clampPoint_distSq_le b q.position qp
              ((WF_leaf_iff (m + 1) b pts).1 hwf q hq)
            linarith
      · simp [searchNode, hp, storedPoints_leaf, List.mem_append, List.mem_filter]
    | node b c =>
      obtain ⟨hb, hcw⟩ := (WF_node_iff m b c).1 hwf
      by_cases hp : rSq < (b.clampPoint qp).distanceToSquared qp
      · simp only [searchNode, hp, ite_true]
        constructor
        · exact Or.inl
        · rintro (h | ⟨hq, hd⟩)
          · exact h
          · have hcont := stored_containsPoint (m + 1) (.node b c) hwf q hq
            rw [boundsOf_node] at hcont
            have := clampPoint_distSq_le b q.position qp hcont
            linarith
      · have hfold : ∀ (l : List (Fin 8)) (acc : List (OctreeData α)),
            q ∈ l.foldl (fun acc i => searchNode qp rSq m (c i) acc) acc ↔
              q ∈ acc ∨ ∃ i ∈ l, q ∈ OctreeNode.storedPoints m (c i) ∧
                q.position.distanceToSquared qp ≤ rSq := by
          intro l
          induction l with
          | nil => intro acc; simp
          | cons i l ihl =>
            intro acc
            rw [List.foldl_cons, ihl, ih (c i) (hcw i)]
            constructor
            · rintro ((h | h) | ⟨j, hj, h⟩)
              · exact Or.inl h
              · exact Or.inr ⟨i, List.mem_cons_self i l, h⟩
              · exact Or.inr ⟨j, List.mem_cons_of_mem i hj, h⟩
            · rintro (h | ⟨j, hj, h⟩)
              · exact Or.inl (Or.inl h)
              · rcases List.mem_cons.1 hj with rfl | hj'
                · exact Or.inl (Or.inr h)
                · exact Or.inr ⟨j, hj', h⟩
        simp only [searchNode, hp, ite_false]
        rw [hfold (List.finRange 8) acc]
        constructor
        · rintro (h | ⟨i, _, h1, h2⟩)
          · exact Or.inl h
          · exact Or.inr ⟨mem_storedPoints_node.2 ⟨i, h1⟩, h2⟩
        · rintro (h | ⟨h1, h2⟩)
          · exact Or.inl h
          · obtain ⟨i, hi⟩ := mem_storedPoints_node.1 h1
            exact Or.inr ⟨i, List.mem_finRange i, hi, h2⟩

/-- The root produced by folding `Octree.insert` over a point list. -/
def buildRoot (bounds : Box3) (D K : ℕ) (ps : List (OctreeData α)) : OctreeNode α D :=
  ps.foldl (fun t p => insertIntoNode K D t p) (.leaf bounds [])

theorem buildOctree_eq (bounds : Box3) (D K : ℕ) (ps : List (OctreeData α)) :
    buildOctree α bounds D K ps = ⟨D, K, buildRoot bounds D K ps⟩ := by
  have h : ∀ (ps : List (OctreeData α)) (r : OctreeNode α D),
      ps.foldl (fun t p => Octree.insert t p.position p.data) (⟨D, K, r⟩ : Octree α) =
        ⟨D, K, ps.foldl (fun t p => insertIntoNode K D t p) r⟩ := by
    intro ps
    induction ps with
    | nil => intro r; rfl
    | cons p ps ih =>
      intro r
      rw [List.foldl_cons, List.foldl_cons]
      exact ih (insertIntoNode K D r p)
  simpa [buildOctree, buildRoot, Octree.create] using h ps (.leaf bounds [])

theorem WF_foldl_insert (K m : ℕ) :
    ∀ (ps : List (OctreeData α)) (t : OctreeNode α m), WF m t →
      WF m (ps.foldl (fun t r => insertIntoNode K m t r) t) := by
  intro ps
  induction ps with
  | nil => intro t h; exact h
  | cons r rs ihr =>
    intro t h
    exact ihr (insertIntoNode K m t r) (WF_insertIntoNode K m t r h)

theorem WF_buildRoot (bounds : Box3) (D K : ℕ) (ps : List (OctreeData α)) :
    WF D (buildRoot bounds D K ps) :=
  WF_foldl_insert K D ps _ ((WF_leaf_iff D bounds []).2 (by intro p hp; cases hp))

theorem boundsOf_buildRoot (bounds : Box3) (D K : ℕ) (ps : List (OctreeData α)) :
    OctreeNode.boundsOf D (buildRoot bounds D K ps) = bounds := by
  rw [buildRoot, boundsOf_foldl_insert, boundsOf_leaf]

/-- The set of stored points of a built octree is exactly the inserted
list, provided every inserted point lies in the root bounds. -/
theorem mem_storedPoints_buildRoot (bounds : Box3) (D K : ℕ)
    (ps : List (OctreeData α)) (hin : ∀ p ∈ ps, bounds.containsPoint p.position = true)
    (q : OctreeData α) :
    q ∈ OctreeNode.storedPoints D (buildRoot bounds D K ps) ↔ q ∈ ps := by
  have hgen : ∀ (ps : List (OctreeData α)) (t : OctreeNode α D), WF D t →
      OctreeNode.boundsOf D t = bounds →
      (∀ p ∈ ps, bounds.containsPoint p.position = true) →
      (q ∈ OctreeNode.storedPoints D (ps.foldl (fun t r => insertIntoNode K D t r) t) ↔
        q ∈ OctreeNode.storedPoints D t ∨ q ∈ ps) := by
    intro ps
    induction ps with
    | nil => intro t _ _ _; simp
    | cons p ps ih =>
      intro t hwf hbt hin'
      rw [List.foldl_cons, ih (insertIntoNode K D t p)
        (WF_insertIntoNode K D t p hwf)
        (by rw [boundsOf_insertIntoNode]; exact hbt)
        (fun r hr => hin' r (List.mem_cons_of_mem p hr))]
      constructor
      · rintro (h | h)
        · rcases stored_insertIntoNode_sub K D t p q h with h' | h'
          · exact Or.inl h'
          · exact Or.inr (h' ▸ List.mem_cons_self p ps)
        · exact Or.inr (List.mem_cons_of_mem p h)
      · rintro (h | h)
        · exact Or.inl (stored_insertIntoNode_mem K D t hwf p q (Or.inr h))
        · rcases List.mem_cons.1 h with rfl | h'
          · exact Or.inl (stored_insertIntoNode_mem K D t hwf q q
              (Or.inl ⟨rfl, by rw [hbt]; exact hin' q (List.mem_cons_self q ps)⟩))
          · exact Or.inr h'
  rw [buildRoot, hgen ps (.leaf bounds [])
    ((WF_leaf_iff D bounds []).2 (by intro p hp; cases hp))
    (boundsOf_leaf D bounds []) hin]
  simp [storedPoints_leaf]

/-- Leaf-capacity invariant: every leaf that can still subdivide (depth
strictly below `maxDepth`) holds at most `K` points. -/
def CapOk (K : ℕ) : (n : ℕ) → OctreeNode α n → Prop
  | 0, _ => True
  | _ + 1, .leaf _ pts => pts.length ≤ K
  | m + 1, .node _ c => ∀ i, CapOk K m (c i)

theorem CapOk_empty (K m : ℕ) (b : Box3) : CapOk K m (.leaf b ([] : List (OctreeData α))) := by
  cases m with
  | zero => trivial
  | succ m => show ([] : List (OctreeData α)).length ≤ K; simp

theorem CapOk_insertIntoNode (K : ℕ) :
    ∀ (n : ℕ) (t : OctreeNode α n) (p : OctreeData α),
      CapOk K n t → CapOk K n (insertIntoNode K n t p) := by
  intro n
  induction n with
  | zero =>
    intro t p _
    cases t with
    | leaf b pts =>
      by_cases hc : b.containsPoint p.position <;> simp [insertIntoNode, hc, CapOk]
  | succ m ih =>
    have hfold : ∀ (ps : List (OctreeData α)) (t : OctreeNode α m), CapOk K m t →
        CapOk K m (ps.foldl (fun t r => insertIntoNode K m t r) t) := by
      intro ps
      induction ps with
      | nil => intro t h; exact h
      | cons r rs ihr => intro t h; exact ihr (insertIntoNode K m t r) (ih t r h)
    intro t p hcap
    cases t with
    | leaf b pts =>
      by_cases hc : b.containsPoint p.position
      · by_cases hl : K < pts.length + 1
        · simp only [insertIntoNode, hc, ite_true, List.length_append,
            List.length_singleton, gt_iff_lt, hl]
          intro i
          exact hfold (pts ++ [p]) (.leaf (b.subdivideChild i) []) (CapOk_empty K m _)
        · simp only [insertIntoNode, hc, ite_true, List.length_append,
            List.length_singleton, gt_iff_lt, hl, ite_false]
          show (pts ++ [p]).length ≤ K
          simp only [List.length_append, List.length_singleton]
          omega
      · simpa [insertIntoNode, hc] using hcap
    | node b c =>
      by_cases hc : b.containsPoint p.position
      · simp only [insertIntoNode, hc, ite_true]
        intro i
        exact ih (c i) p (hcap i)
      · simpa [insertIntoNode, hc] using hcap

theorem CapOk_buildRoot (bounds : Box3) (D K : ℕ) (ps : List (OctreeData α)) :
    CapOk K D (buildRoot bounds D K ps) := by
  have hfold : ∀ (ps : List (OctreeData α)) (t : OctreeNode α D), CapOk K D t →
      CapOk K D (ps.foldl (fun t r => insertIntoNode K D t r) t) := by
    intro ps
    induction ps with
    | nil => intro t h; exact h
    | cons r rs ihr =>
      intro t h
      exact ihr (insertIntoNode K D t r) (CapOk_insertIntoNode K D t r h)
  exact hfold ps _ (CapOk_empty K D bounds)

/-- Recursive containment: no subtree stores a point outside its own node's
bounds. -/
def AllInBounds : (n : ℕ) → OctreeNode α n → Prop
  | _, .leaf b pts => ∀ p ∈ pts, b.containsPoint p.position = true
  | m + 1, .node b c =>
      (∀ i, ∀ q ∈ OctreeNode.storedPoints m (c i), b.containsPoint q.position = true) ∧
        ∀ i, AllInBounds m (c i)

theorem AllInBounds_of_WF : ∀ (n : ℕ) (t : OctreeNode α n), WF n t → AllInBounds n t := by
  intro n
  induction n with
  | zero =>
    intro t hwf
    cases t with
    | leaf b pts => exact (WF_leaf_iff 0 b pts).1 hwf
  | succ m ih =>
    intro t hwf
    cases t with
    | leaf b pts => exact (WF_leaf_iff (m + 1) b pts).1 hwf
    | node b c =>
      obtain ⟨hb, hcw⟩ := (WF_node_iff m b c).1 hwf
      refine ⟨fun i q hq => ?_, fun i => ih (c i) (hcw i)⟩
      have := stored_containsPoint m (c i) (hcw i) q hq
      rw [hb i] at this
      exact containsPoint_of_subdivideChild b i q.position this

/-- Height of a subtree (a lone leaf has height 1). -/
def nodeHeight : (n : ℕ) → OctreeNode α n → ℕ
  | _, .leaf _ _ => 1
  | m + 1, .node _ c =>
      1 + (List.finRange 8).foldr (fun i acc => Max.max (nodeHeight m (c i)) acc) 0

theorem nodeHeight_le : ∀ (n : ℕ) (t : OctreeNode α n), nodeHeight n t ≤ n + 1 := by
  intro n
  induction n with
  | zero =>
    intro t
    cases t with
    | leaf b pts => exact le_refl 1
  | succ m ih =>
    intro t
    cases t with
    | leaf b pts => show 1 ≤ m + 2; omega
    | node b c =>
      show 1 + (List.finRange 8).foldr (fun i acc => Max.max (nodeHeight m (c i)) acc) 0 ≤ m + 2
      have hl : ∀ l : List (Fin 8),
          l.foldr (fun i acc => Max.max (nodeHeight m (c i)) acc) 0 ≤ m + 1 := by
        intro l
        induction l with
        | nil => simp
        | cons i l ihl => exact max_le (ih (c i)) ihl
      have := hl (List.finRange 8)
      omega

/-- Claim C2, amended (duplicate reports removed from the claim): for every
point set inside the root bounds, `findNearest(q, r)` is sorted ascending by
distance to `q`, and its members are exactly the inserted points within
Euclidean distance `r` — but a point may be reported more than once, because
redistribution on subdivision hands a point lying on a shared child boundary
to every child whose (closed) box contains it. -/
theorem findNearest_sorted_and_complete (α : Type) (bounds : Box3) (D K : ℕ)
    (ps : List (OctreeData α)) (point : Vec3) (radius : ℚ)
    (hin : ∀ p ∈ ps, bounds.containsPoint p.position = true) :
    List.Sorted (Octree.distLE point)
        ((buildOctree α bounds D K ps).findNearest point radius) ∧
      ∀ q : OctreeData α,
        q ∈ (buildOctree α bounds D K ps).findNearest point radius ↔
          q ∈ ps ∧ q.position.distanceToSquared point ≤ radius * radius := by
  rw [buildOctree_eq]
  constructor
  · exact List.sorted_insertionSort _ _
  · intro q
    show q ∈ List.insertionSort _ _ ↔ _
    rw [List.mem_insertionSort,
      mem_searchNode point (radius * radius) D _ (WF_buildRoot bounds D K ps) [] q,
      mem_storedPoints_buildRoot bounds D K ps hin q]
    simp

/-- Witness for `findNearest_sorted_and_complete` at a concrete input. -/
theorem findNearest_sorted_and_complete_witness :
    (∀ p ∈ ([⟨⟨0, 0, 0⟩, 0⟩, ⟨⟨1, 0, 0⟩, 1⟩] : List (OctreeData ℕ)),
        Box3.containsPoint ⟨⟨0, 0, 0⟩, ⟨2, 2, 2⟩⟩ p.position = true) ∧
      (List.Sorted (Octree.distLE ⟨0, 0, 0⟩)
          ((buildOctree ℕ ⟨⟨0, 0, 0⟩, ⟨2, 2, 2⟩⟩ 8 8
            [⟨⟨0, 0, 0⟩, 0⟩, ⟨⟨1, 0, 0⟩, 1⟩]).findNearest ⟨0, 0, 0⟩ 3) ∧
        ∀ q : OctreeData ℕ,
          q ∈ (buildOctree ℕ ⟨⟨0, 0, 0⟩, ⟨2, 2, 2⟩⟩ 8 8
              [⟨⟨0, 0, 0⟩, 0⟩, ⟨⟨1, 0, 0⟩, 1⟩]).findNearest ⟨0, 0, 0⟩ 3 ↔
            q ∈ [⟨⟨0, 0, 0⟩, 0⟩, ⟨⟨1, 0, 0⟩, 1⟩] ∧
              q.position.distanceToSquared ⟨0, 0, 0⟩ ≤ 3 * 3) :=
  ⟨by decide, findNearest_sorted_and_complete ℕ ⟨⟨0, 0, 0⟩, ⟨2, 2, 2⟩⟩ 8 8
    [⟨⟨0, 0, 0⟩, 0⟩, ⟨⟨1, 0, 0⟩, 1⟩] ⟨0, 0, 0⟩ 3 (by decide)⟩

/-- Counterexample to claim C2 as stated, with the constructor's default
parameters (`maxDepth = 8`, `maxPointsPerNode = 8`): after eight points in
distinct octants, inserting the center point `(1,1,1)` overflows the root
leaf; redistribution hands the center — which lies on every subdivision
plane — to all eight children, so `findNearest((1,1,1), 1/2)` reports it
eight times although it was inserted once, not "each reported exactly
once". -/
theorem findNearest_duplicate_counterexample :
    ((buildOctree ℕ ⟨⟨0, 0, 0⟩, ⟨2, 2, 2⟩⟩ 8 8
        [⟨⟨1/2, 1/2, 1/2⟩, 0⟩, ⟨⟨3/2, 1/2, 1/2⟩, 1⟩, ⟨⟨1/2, 3/2, 1/2⟩, 2⟩,
         ⟨⟨3/2, 3/2, 1/2⟩, 3⟩, ⟨⟨1/2, 1/2, 3/2⟩, 4⟩, ⟨⟨3/2, 1/2, 3/2⟩, 5⟩,
         ⟨⟨1/2, 3/2, 3/2⟩, 6⟩, ⟨⟨3/2, 3/2, 3/2⟩, 7⟩,
         ⟨⟨1, 1, 1⟩, 8⟩]).findNearest ⟨1, 1, 1⟩ (1/2)).count ⟨⟨1, 1, 1⟩, 8⟩ = 8 ∧
      ([⟨⟨1/2, 1/2, 1/2⟩, 0⟩, ⟨⟨3/2, 1/2, 1/2⟩, 1⟩, ⟨⟨1/2, 3/2, 1/2⟩, 2⟩,
        ⟨⟨3/2, 3/2, 1/2⟩, 3⟩, ⟨⟨1/2, 1/2, 3/2⟩, 4⟩, ⟨⟨3/2, 1/2, 3/2⟩, 5⟩,
        ⟨⟨1/2, 3/2, 3/2⟩, 6⟩, ⟨⟨3/2, 3/2, 3/2⟩, 7⟩,
        ⟨⟨1, 1, 1⟩, 8⟩] : List (OctreeData ℕ)).count ⟨⟨1, 1, 1⟩, 8⟩ = 1 := by
  decide

/-- Claim C10: structural invariants of the octree after any insertion
sequence — capacity respected on every subdividable leaf, bounds
well-formedness, recursive containment of stored points, depth bounded by
`maxDepth`, the eight subdivision children tile the parent box, and a point
outside the root bounds is dropped leaving the tree unchanged. -/
theorem octree_structural_invariants (α : Type) (bounds : Box3) (D K : ℕ)
    (ps : List (OctreeData α)) :
    CapOk K D (buildRoot bounds D K ps) ∧
      WF D (buildRoot bounds D K ps) ∧
      AllInBounds D (buildRoot bounds D K ps) ∧
      nodeHeight D (buildRoot bounds D K ps) ≤ D + 1 ∧
      (∀ (b : Box3) (x : Vec3),
        b.containsPoint x = true ↔ ∃ i : Fin 8, (b.subdivideChild i).containsPoint x = true) ∧
      ∀ (pos : Vec3) (d : α),
        bounds.containsPoint pos = false →
          (buildOctree α bounds D K ps).insert pos d = buildOctree α bounds D K ps := by
  refine ⟨CapOk_buildRoot bounds D K ps, WF_buildRoot bounds D K ps,
    AllInBounds_of_WF D _ (WF_buildRoot bounds D K ps), nodeHeight_le D _,
    fun b x => ⟨exists_subdivideChild_containsPoint b x,
      fun ⟨i, hi⟩ => containsPoint_of_subdivideChild b i x hi⟩, ?_⟩
  intro pos d hout
  rw [buildOctree_eq]
  show Octree.mk D K (insertIntoNode K D (buildRoot bounds D K ps) ⟨pos, d⟩) = _
  have hb : OctreeNode.boundsOf D (buildRoot bounds D K ps) = bounds :=
    boundsOf_buildRoot bounds D K ps
  have hins : insertIntoNode K D (buildRoot bounds D K ps) ⟨pos, d⟩ =
      buildRoot bounds D K ps := by
    cases hroot : buildRoot bounds D K ps with
    | leaf b' pts =>
      have : b' = bounds := by rw [hroot, boundsOf_leaf] at hb; exact hb
      subst this
      cases D with
      | zero => simp [insertIntoNode, hout]
      | succ m => simp [insertIntoNode, hout]
    | node b' c =>
      have : b' = bounds := by rw [hroot, boundsOf_node] at hb; exact hb
      subst this
      simp [insertIntoNode, hout]
  rw [hins]

/-- Witness for `octree_structural_invariants` at a concrete input
(including the outside-drop hypothesis discharged at a concrete point). -/
theorem octree_structural_invariants_witness :
    Box3.containsPoint ⟨⟨0, 0, 0⟩, ⟨1, 1, 1⟩⟩ ⟨5, 5, 5⟩ = false ∧
      (buildOctree ℕ ⟨⟨0, 0, 0⟩, ⟨1, 1, 1⟩⟩ 8 8 [⟨⟨0, 0, 0⟩, 0⟩]).insert ⟨5, 5, 5⟩ 7 =
        buildOctree ℕ ⟨⟨0, 0, 0⟩, ⟨1, 1, 1⟩⟩ 8 8 [⟨⟨0, 0, 0⟩, 0⟩] :=
  ⟨by decide,
    (octree_structural_invariants ℕ ⟨⟨0, 0, 0⟩, ⟨1, 1, 1⟩⟩ 8 8
      [⟨⟨0, 0, 0⟩, 0⟩]).2.2.2.2.2 ⟨5, 5, 5⟩ 7 (by decide)⟩

/-! ### The Explosion Transform Engine (`ExploderCore`, `src/core/index.ts`)

The engine's per-part recomputation is embedded per mesh key (a `ℕ` stands
for the JavaScript object identity used as `Map` key).  The host scene
graph's `parent.worldToLocal` conversion is abstracted as a per-mesh
function, and the numeric square root as an explicit `sqrt` argument. -/

/-- The six `ExplosionMode` values of `types.ts`. -/
inductive ExplosionMode where
  | RADIAL
  | AXIAL
  | NORMALIZED_RADIAL
  | SIZE_WEIGHTED
  | HIERARCHICAL
  | FORCE_FIELD
deriving DecidableEq, Repr

namespace EXPLODER_CONSTANTS

/-- `EXPLODER_CONSTANTS.PROGRESS.MIN`. -/
def PROGRESS_MIN : ℚ := 0
/-- `EXPLODER_CONSTANTS.PROGRESS.MAX`. -/
def PROGRESS_MAX : ℚ := 1
/-- `EXPLODER_CONSTANTS.MULTIPLIER.MIN` (0.1). -/
def MULTIPLIER_MIN : ℚ := 1 / 10
/-- `EXPLODER_CONSTANTS.MULTIPLIER.MAX` (5.0). -/
def MULTIPLIER_MAX : ℚ := 5
/-- `EXPLODER_CONSTANTS.DEFAULT_MAX_DISTANCE` (2.0). -/
def DEFAULT_MAX_DISTANCE : ℚ := 2
/-- `EXPLODER_CONSTANTS.WEIGHTS.FORCE_FIELD_OFFSET` (0.2). -/
def FORCE_FIELD_OFFSET : ℚ := 1 / 5

end EXPLODER_CONSTANTS

/-- The mutable state of an `ExploderCore` instance: explosion parameters,
model center/bounding-sphere radius, and the per-part derived-attribute
maps (JavaScript `Map`s modelled as association lists over mesh keys). -/
structure ExploderCoreState where
  progress : ℚ
  multiplier : ℚ
  mode : ExplosionMode
  maxDistance : ℚ
  axialVector : Vec3
  modelCenter : Vec3
  modelRadius : ℚ
  originalPositions : List (ℕ × Vec3)
  originalRotations : List (ℕ × Vec3)
  originalScales : List (ℕ × Vec3)
  explodeDirections : List (ℕ × Vec3)
  axialDistances : List (ℕ × ℚ)
  sizeWeights : List (ℕ × ℚ)
  hierarchicalDepths : List (ℕ × ℚ)
  explodableMeshes : List ℕ
deriving DecidableEq, Repr

/-- JavaScript `x || d` on an optional number: `undefined` and `0` both fall
back to the default (used for the `.get(mesh) || 0` / `|| 1.0` reads). -/
def jsOrElse (o : Option ℚ) (dflt : ℚ) : ℚ :=
  match o with
  | none => dflt
  | some v => if v = 0 then dflt else v

/-- Three.js `Vector3.length()`, via the supplied square root. -/
def lengthWith (sqrt : ℚ → ℚ) (v : Vec3) : ℚ := sqrt (Vec3.dot v v)

/-- Three.js `Vector3.normalize()`: `divideScalar(length() || 1)`. -/
def normalizeWith (sqrt : ℚ → ℚ) (v : Vec3) : Vec3 :=
  let l := lengthWith sqrt v
  (1 / (if l = 0 then 1 else l)) • v

/-- One part's target world position as computed by
`ExploderCore.updateExplodedPositions`, given the part's recorded original
world position and explosion direction. -/
def explodedTargetWorld (sqrt : ℚ → ℚ) (st : ExploderCoreState) (mesh : ℕ)
    (originalPosition direction : Vec3) : Vec3 :=
  let baseDistance := st.modelRadius * st.maxDistance * st.progress * st.multiplier
  match st.mode with
  | .RADIAL => originalPosition + baseDistance • direction
  | .AXIAL =>
      let axialDistance := jsOrElse (List.lookup mesh st.axialDistances) 0
      let axialDir := normalizeWith sqrt st.axialVector
      originalPosition +
        (axialDistance * st.modelRadius * st.maxDistance * st.progress * st.multiplier) • axialDir
  | .NORMALIZED_RADIAL =>
      let relativePos := originalPosition - st.modelCenter
      originalPosition + (st.maxDistance * st.progress * st.multiplier) • relativePos
  | .SIZE_WEIGHTED =>
      let weight := jsOrElse (List.lookup mesh st.sizeWeights) 1
      originalPosition + (baseDistance * weight) • direction
  | .HIERARCHICAL =>
      let depthWeight := jsOrElse (List.lookup mesh st.hierarchicalDepths) 1
      originalPosition + (baseDistance * depthWeight) • direction
  | .FORCE_FIELD =>
      let relativePos := originalPosition - st.modelCenter
      let r := lengthWith sqrt relativePos
      let rNorm := r / st.modelRadius
      let forceMagnitude := 1 / (rNorm + EXPLODER_CONSTANTS.FORCE_FIELD_OFFSET)
      originalPosition + (baseDistance * forceMagnitude) • direction

/-- `ExploderCore.updateExplodedPositions`: for every explodable mesh whose
original position and direction are recorded, compute the target world
position and convert it into the parent's local frame (`worldToLocal`,
abstracted per mesh; a part missing either map entry is silently skipped). -/
def updateExplodedPositions (sqrt : ℚ → ℚ) (worldToLocal : ℕ → Vec3 → Vec3)
    (st : ExploderCoreState) : List (ℕ × Vec3) :=
  st.explodableMeshes.filterMap fun mesh =>
    match List.lookup mesh st.originalPositions, List.lookup mesh st.explodeDirections with
    | some originalPosition, some direction =>
        some (mesh, worldToLocal mesh (explodedTargetWorld sqrt st mesh originalPosition direction))
    | _, _ => none

/-- `ExploderCore.setProgress`: clamp into `[PROGRESS.MIN, PROGRESS.MAX]`
and store (recomputation is `updateExplodedPositions`). -/
def ExploderCoreState.setProgress (st : ExploderCoreState) (progress : ℚ) : ExploderCoreState :=
  { st with progress := clamp progress EXPLODER_CONSTANTS.PROGRESS_MIN EXPLODER_CONSTANTS.PROGRESS_MAX }

/-- `ExploderCore.setMultiplier`: clamp into `[MULTIPLIER.MIN, MULTIPLIER.MAX]`
and store. -/
def ExploderCoreState.setMultiplier (st : ExploderCoreState) (multiplier : ℚ) : ExploderCoreState :=
  { st with multiplier := clamp multiplier EXPLODER_CONSTANTS.MULTIPLIER_MIN EXPLODER_CONSTANTS.MULTIPLIER_MAX }

/-- `ExploderCore.reset`: `progress = 0` (parts are written back to their
original transforms). -/
def ExploderCoreState.reset (st : ExploderCoreState) : ExploderCoreState :=
  { st with progress := 0 }

/-- `ExploderCore.dispose`: reset, then clear every cached map and the
explodable list. -/
def ExploderCoreState.dispose (st : ExploderCoreState) : ExploderCoreState :=
  { st.reset with
    originalPositions := []
    originalRotations := []
    originalScales := []
    explodeDirections := []
    sizeWeights := []
    axialDistances := []
    hierarchicalDepths := []
    explodableMeshes := [] }

theorem Vec3.smul_zero_scalar (v : Vec3) : (0 : ℚ) • v = ⟨0, 0, 0⟩ := by
  simp [Vec3.smul_def]

theorem Vec3.add_zero_vec (v : Vec3) : v + (⟨0, 0, 0⟩ : Vec3) = v := by
  cases v
  simp [Vec3.add_def]

/-- At `progress = 0` every mode's displacement vanishes. -/
theorem explodedTargetWorld_progress_zero (sqrt : ℚ → ℚ) (st : ExploderCoreState)
    (mesh : ℕ) (originalPosition direction : Vec3) (h : st.progress = 0) :
    explodedTargetWorld sqrt st mesh originalPosition direction = originalPosition := by
  cases hm : st.mode <;>
    simp [explodedTargetWorld, hm, h, mul_zero, zero_mul, Vec3.smul_zero_scalar,
      Vec3.add_zero_vec]

/-- The specification's base-distance formula, transcribed from its words:
`baseDistance = assemblyRadius · maxDistanceFactor · progress · multiplier`. -/
def specBaseDistance (assemblyRadius maxDistanceFactor progress multiplier : ℚ) : ℚ :=
  assemblyRadius * maxDistanceFactor * progress * multiplier

/-- Claim C1: in RADIAL mode the displacement added to a part's original
world position is its explosion direction scaled by
`modelRadius · maxDistance · progress · multiplier` — the assembly's
bounding-sphere radius is a factor of the base distance, exactly as the
spec's `baseDistance` formula states. -/
theorem radial_displacement_uses_assembly_radius (sqrt : ℚ → ℚ)
    (st : ExploderCoreState) (mesh : ℕ) (originalPosition direction : Vec3)
    (h : st.mode = ExplosionMode.RADIAL) :
    explodedTargetWorld sqrt st mesh originalPosition direction =
      originalPosition +
        specBaseDistance st.modelRadius st.maxDistance st.progress st.multiplier • direction := by
  simp [explodedTargetWorld, h, specBaseDistance]

/-- A concrete engine state shared by the witnesses below: one explodable
part with key 0 at world position `(1,0,0)`, direction `(1,0,0)`, default
`maxDistance` factor 2, radius 1, center at the origin. -/
def sampleExploderState : ExploderCoreState where
  progress := 0
  multiplier := 1
  mode := ExplosionMode.RADIAL
  maxDistance := EXPLODER_CONSTANTS.DEFAULT_MAX_DISTANCE
  axialVector := ⟨0, 1, 0⟩
  modelCenter := ⟨0, 0, 0⟩
  modelRadius := 1
  originalPositions := [(0, ⟨1, 0, 0⟩)]
  originalRotations := []
  originalScales := []
  explodeDirections := [(0, ⟨1, 0, 0⟩)]
  axialDistances := []
  sizeWeights := []
  hierarchicalDepths := []
  explodableMeshes := [0]

/-- Witness for `radial_displacement_uses_assembly_radius`. -/
theorem radial_displacement_uses_assembly_radius_witness :
    sampleExploderState.mode = ExplosionMode.RADIAL ∧
      explodedTargetWorld id sampleExploderState 0 ⟨1, 0, 0⟩ ⟨1, 0, 0⟩ =
        (⟨1, 0, 0⟩ : Vec3) +
          specBaseDistance sampleExploderState.modelRadius sampleExploderState.maxDistance
            sampleExploderState.progress sampleExploderState.multiplier • (⟨1, 0, 0⟩ : Vec3) :=
  ⟨rfl, radial_displacement_uses_assembly_radius id sampleExploderState 0 ⟨1, 0, 0⟩ ⟨1, 0, 0⟩ rfl⟩

/-- At `progress = 0` the recomputation writes back exactly the original
world positions (converted to the parent frame), for every state. -/
theorem updateExplodedPositions_progress_zero (sqrt : ℚ → ℚ)
    (worldToLocal : ℕ → Vec3 → Vec3) (st : ExploderCoreState) (h : st.progress = 0) :
    updateExplodedPositions sqrt worldToLocal st =
      st.explodableMeshes.filterMap fun mesh =>
        match List.lookup mesh st.originalPositions, List.lookup mesh st.explodeDirections with
        | some originalPosition, some _ => some (mesh, worldToLocal mesh originalPosition)
        | _, _ => none := by
  unfold updateExplodedPositions
  apply List.filterMap_congr
  intro mesh _
  cases ho : List.lookup mesh st.originalPositions with
  | none => rfl
  | some originalPosition =>
    cases hd : List.lookup mesh st.explodeDirections with
    | none => rfl
    | some direction =>
      simp [explodedTargetWorld_progress_zero sqrt st mesh originalPosition direction h]

/-- Claim C4: after `setProgress(0)` every explodable part (with recorded
original position and direction) is written back exactly to its original
world position converted into its parent's local frame, for every mode,
multiplier and axial vector in the state. -/
theorem setProgress_zero_restores_originals (sqrt : ℚ → ℚ)
    (worldToLocal : ℕ → Vec3 → Vec3) (st : ExploderCoreState) :
    updateExplodedPositions sqrt worldToLocal (st.setProgress 0) =
      st.explodableMeshes.filterMap fun mesh =>
        match List.lookup mesh st.originalPositions, List.lookup mesh st.explodeDirections with
        | some originalPosition, some _ => some (mesh, worldToLocal mesh originalPosition)
        | _, _ => none := by
  have hp : (st.setProgress 0).progress = 0 := by
    simp [ExploderCoreState.setProgress, clamp, EXPLODER_CONSTANTS.PROGRESS_MIN,
      EXPLODER_CONSTANTS.PROGRESS_MAX]
  exact updateExplodedPositions_progress_zero sqrt worldToLocal (st.setProgress 0) hp

/-- Claim C7: `dispose()` releases every derived-attribute map — the three
original-transform maps, the explosion-direction map, and the
axial-projection, size-weight and hierarchy-depth maps — as well as the
explodable list. -/
theorem dispose_clears_all_derived_maps (st : ExploderCoreState) :
    st.dispose.originalPositions = [] ∧ st.dispose.originalRotations = [] ∧
      st.dispose.originalScales = [] ∧ st.dispose.explodeDirections = [] ∧
      st.dispose.axialDistances = [] ∧ st.dispose.sizeWeights = [] ∧
      st.dispose.hierarchicalDepths = [] ∧ st.dispose.explodableMeshes = [] :=
  ⟨rfl, rfl, rfl, rfl, rfl, rfl, rfl, rfl⟩

/-- Claim C9: `setProgress` and `setMultiplier` are total (never raise) and
store `min(1, max(0, p))` and `min(5.0, max(0.1, m))` respectively. -/
theorem setters_clamp_out_of_range_input (st : ExploderCoreState) (p m : ℚ) :
    (st.setProgress p).progress = Min.min 1 (Max.max 0 p) ∧
      (st.setMultiplier m).multiplier = Min.min 5 (Max.max (1 / 10) m) := by
  constructor
  · show clamp p EXPLODER_CONSTANTS.PROGRESS_MIN EXPLODER_CONSTANTS.PROGRESS_MAX = _
    rw [clamp, EXPLODER_CONSTANTS.PROGRESS_MIN, EXPLODER_CONSTANTS.PROGRESS_MAX,
      max_min_distrib_left]
    norm_num
  · show clamp m EXPLODER_CONSTANTS.MULTIPLIER_MIN EXPLODER_CONSTANTS.MULTIPLIER_MAX = _
    rw [clamp, EXPLODER_CONSTANTS.MULTIPLIER_MIN, EXPLODER_CONSTANTS.MULTIPLIER_MAX,
      max_min_distrib_left]
    norm_num

/-- Squared distance of a part's target position from the assembly center. -/
def explodedDistanceToCenterSq (sqrt : ℚ → ℚ) (st : ExploderCoreState) (mesh : ℕ)
    (originalPosition direction : Vec3) : ℚ :=
  (explodedTargetWorld sqrt st mesh originalPosition direction).distanceToSquared st.modelCenter

theorem explodedDistanceToCenterSq_radial (sqrt : ℚ → ℚ) (st : ExploderCoreState)
    (mesh : ℕ) (o d : Vec3) (h : st.mode = ExplosionMode.RADIAL) :
    explodedDistanceToCenterSq sqrt st mesh o d =
      ((o.x - st.modelCenter.x) +
          st.modelRadius * st.maxDistance * st.multiplier * st.progress * d.x) ^ 2 +
        ((o.y - st.modelCenter.y) +
          st.modelRadius * st.maxDistance * st.multiplier * st.progress * d.y) ^ 2 +
        ((o.z - st.modelCenter.z) +
          st.modelRadius * st.maxDistance * st.multiplier * st.progress * d.z) ^ 2 := by
  simp [explodedDistanceToCenterSq, explodedTargetWorld, h, Vec3.add_def, Vec3.smul_def,
    Vec3.distanceToSquared]
  ring

theorem explodedDistanceToCenterSq_normalized (sqrt : ℚ → ℚ) (st : ExploderCoreState)
    (mesh : ℕ) (o d : Vec3) (h : st.mode = ExplosionMode.NORMALIZED_RADIAL) :
    explodedDistanceToCenterSq sqrt st mesh o d =
      ((1 + st.maxDistance * st.multiplier * st.progress) * (o.x - st.modelCenter.x)) ^ 2 +
        ((1 + st.maxDistance * st.multiplier * st.progress) * (o.y - st.modelCenter.y)) ^ 2 +
        ((1 + st.maxDistance * st.multiplier * st.progress) * (o.z - st.modelCenter.z)) ^ 2 := by
  simp [explodedDistanceToCenterSq, explodedTargetWorld, h, Vec3.add_def, Vec3.smul_def,
    Vec3.sub_def, Vec3.distanceToSquared]
  ring

theorem radial_quadratic_mono (rx ry rz dx dy dz k p1 p2 : ℚ)
    (hk : 0 ≤ k) (h0 : 0 ≤ p1) (h12 : p1 ≤ p2)
    (hdot : 0 ≤ rx * dx + ry * dy + rz * dz) :
    (rx + k * p1 * dx) ^ 2 + (ry + k * p1 * dy) ^ 2 + (rz + k * p1 * dz) ^ 2 ≤
      (rx + k * p2 * dx) ^ 2 + (ry + k * p2 * dy) ^ 2 + (rz + k * p2 * dz) ^ 2 := by
  have h1 : 0 ≤ k * (p2 - p1) * (rx * dx + ry * dy + rz * dz) :=
    mul_nonneg (mul_nonneg hk (by linarith)) hdot
  have h2 : 0 ≤ k ^ 2 * ((p2 - p1) * (p2 + p1)) * (dx ^ 2 + dy ^ 2 + dz ^ 2) := by
    have := sq_nonneg dx
    have := sq_nonneg dy
    have := sq_nonneg dz
    have hpp : 0 ≤ (p2 - p1) * (p2 + p1) := mul_nonneg (by linarith) (by linarith)
    positivity
  nlinarith [h1, h2]

theorem normalized_quadratic_mono (rx ry rz c p1 p2 : ℚ)
    (hc : 0 ≤ c) (h0 : 0 ≤ p1) (h12 : p1 ≤ p2) :
    ((1 + c * p1) * rx) ^ 2 + ((1 + c * p1) * ry) ^ 2 + ((1 + c * p1) * rz) ^ 2 ≤
      ((1 + c * p2) * rx) ^ 2 + ((1 + c * p2) * ry) ^ 2 + ((1 + c * p2) * rz) ^ 2 := by
  have hf : 0 ≤ (2 + c * (p1 + p2)) * (c * (p2 - p1)) * (rx ^ 2 + ry ^ 2 + rz ^ 2) := by
    have := sq_nonneg rx
    have := sq_nonneg ry
    have := sq_nonneg rz
    have h1 : 0 ≤ 2 + c * (p1 + p2) := by nlinarith
    have h2 : 0 ≤ c * (p2 - p1) := mul_nonneg hc (by linarith)
    positivity
  nlinarith [hf]

/-- A concrete RADIAL state whose stored direction points back toward the
center, produced by a legal custom direction strategy. -/
def inwardRadialState : ExploderCoreState where
  progress := 0
  multiplier := 1
  mode := ExplosionMode.RADIAL
  maxDistance := EXPLODER_CONSTANTS.DEFAULT_MAX_DISTANCE
  axialVector := ⟨0, 1, 0⟩
  modelCenter := ⟨0, 0, 0⟩
  modelRadius := 1
  originalPositions := [(0, ⟨1, 0, 0⟩)]
  originalRotations := []
  originalScales := []
  explodeDirections := [(0, ⟨-1, 0, 0⟩)]
  axialDistances := []
  sizeWeights := []
  hierarchicalDepths := []
  explodableMeshes := [0]

/-- Counterexample to claim C8 as stated: with the (legal, unit-length)
direction strategy that returns `-r̂`, RADIAL distance from the center
strictly decreases from progress 0 to progress 1/2. -/
theorem radial_monotonicity_counterexample :
    inwardRadialState.mode = ExplosionMode.RADIAL ∧
      (0 : ℚ) ≤ inwardRadialState.multiplier ∧
      (0 : ℚ) ≤ 1 / 2 ∧
      explodedDistanceToCenterSq id { inwardRadialState with progress := 1 / 2 } 0
          ⟨1, 0, 0⟩ ⟨-1, 0, 0⟩ <
        explodedDistanceToCenterSq id { inwardRadialState with progress := 0 } 0
          ⟨1, 0, 0⟩ ⟨-1, 0, 0⟩ := by
  refine ⟨rfl, by decide, by norm_num, ?_⟩
  decide

/-- Claim C8, amended: in NORMALIZED_RADIAL mode unconditionally, and in
RADIAL mode whenever the stored direction does not point against the radius
vector (true of the default center-outward strategy), the part's squared
distance from the assembly center is monotone in progress, for nonnegative
radius, `maxDistance` and multiplier. -/
theorem radial_normalized_distance_monotone (sqrt : ℚ → ℚ) (st : ExploderCoreState)
    (mesh : ℕ) (o d : Vec3) (p1 p2 : ℚ)
    (hp0 : 0 ≤ p1) (hp : p1 ≤ p2)
    (hmult : 0 ≤ st.multiplier) (hmax : 0 ≤ st.maxDistance) (hrad : 0 ≤ st.modelRadius)
    (hmode : st.mode = ExplosionMode.RADIAL ∨ st.mode = ExplosionMode.NORMALIZED_RADIAL)
    (hdir : st.mode = ExplosionMode.RADIAL →
      0 ≤ Vec3.dot (o - st.modelCenter) d) :
    explodedDistanceToCenterSq sqrt { st with progress := p1 } mesh o d ≤
      explodedDistanceToCenterSq sqrt { st with progress := p2 } mesh o d := by
  rcases hmode with hm | hm
  · rw [explodedDistanceToCenterSq_radial sqrt { st with progress := p1 } mesh o d hm,
      explodedDistanceToCenterSq_radial sqrt { st with progress := p2 } mesh o d hm]
    have hdot := hdir hm
    simp only [Vec3.dot, Vec3.sub_def] at hdot
    exact radial_quadratic_mono (o.x - st.modelCenter.x) (o.y - st.modelCenter.y)
      (o.z - st.modelCenter.z) d.x d.y d.z
      (st.modelRadius * st.maxDistance * st.multiplier) p1 p2
      (mul_nonneg (mul_nonneg hrad hmax) hmult) hp0 hp hdot
  · rw [explodedDistanceToCenterSq_normalized sqrt { st with progress := p1 } mesh o d hm,
      explodedDistanceToCenterSq_normalized sqrt { st with progress := p2 } mesh o d hm]
    exact normalized_quadratic_mono (o.x - st.modelCenter.x) (o.y - st.modelCenter.y)
      (o.z - st.modelCenter.z) (st.maxDistance * st.multiplier) p1 p2
      (mul_nonneg hmax hmult) hp0 hp

/-- Witness for `radial_normalized_distance_monotone` on the outward-pointing
sample state. -/
theorem radial_normalized_distance_monotone_witness :
    ((0 : ℚ) ≤ 1 / 4 ∧ (1 / 4 : ℚ) ≤ 1 ∧ (0 : ℚ) ≤ sampleExploderState.multiplier ∧
        (0 : ℚ) ≤ sampleExploderState.maxDistance ∧
        (0 : ℚ) ≤ sampleExploderState.modelRadius ∧
        sampleExploderState.mode = ExplosionMode.RADIAL ∧
        (0 : ℚ) ≤ Vec3.dot ((⟨1, 0, 0⟩ : Vec3) - sampleExploderState.modelCenter) ⟨1, 0, 0⟩) ∧
      explodedDistanceToCenterSq id { sampleExploderState with progress := 1 / 4 } 0
          ⟨1, 0, 0⟩ ⟨1, 0, 0⟩ ≤
        explodedDistanceToCenterSq id { sampleExploderState with progress := 1 } 0
          ⟨1, 0, 0⟩ ⟨1, 0, 0⟩ :=
  ⟨⟨by norm_num, by norm_num, by norm_num [sampleExploderState], by
      norm_num [sampleExploderState, EXPLODER_CONSTANTS.DEFAULT_MAX_DISTANCE],
    by norm_num [sampleExploderState], rfl, by decide⟩,
    radial_normalized_distance_monotone id sampleExploderState 0 ⟨1, 0, 0⟩ ⟨1, 0, 0⟩
      (1 / 4) 1 (by norm_num) (by norm_num) (by norm_num [sampleExploderState])
      (by norm_num [sampleExploderState, EXPLODER_CONSTANTS.DEFAULT_MAX_DISTANCE])
      (by norm_num [sampleExploderState]) (Or.inl rfl) (fun _ => by decide)⟩

/-! ### Unit formatting (`MeasurementFormatter.ts`) -/

/-- `MeasurementUnit` (`'m' | 'cm' | 'mm'`). -/
inductive MeasurementUnit where
  | m
  | cm
  | mm
deriving DecidableEq, Repr

/-- `MeasurementType`: linear, diameter or radius measurements. -/
inductive MeasurementType where
  | LINEAR
  | DIAMETER
  | RADIUS
deriving DecidableEq, Repr

/-- `FormatResult`: the numeric value is kept as the exact rational together
with the decimal count that `toFixed` would render. -/
structure FormatResult where
  value : ℚ
  fractionDigits : ℕ
  unit : MeasurementUnit
  prefixText : String
deriving DecidableEq, Repr

namespace MeasurementFormatter

/-- `MM_TO_M_THRESHOLD` (mm). -/
def MM_TO_M_THRESHOLD : ℚ := 1200

/-- `M_TO_MM_THRESHOLD` (mm). -/
def M_TO_MM_THRESHOLD : ℚ := 800

/-- `MeasurementFormatter.formatLength(distance m, currentUnit, type,
isApproximate)`: hysteresis unit switch, magnitude-dependent precision,
approximation/diameter/radius prefix. -/
def formatLength (distance : ℚ) (currentUnit : MeasurementUnit)
    (type : MeasurementType) (isApproximate : Bool) : FormatResult :=
  let distanceMm := distance * 1000
  let targetUnit : MeasurementUnit :=
    if currentUnit = .mm ∧ distanceMm > MM_TO_M_THRESHOLD then .m
    else if currentUnit = .m ∧ distanceMm < M_TO_MM_THRESHOLD then .mm
    else currentUnit
  let valueDigits : ℚ × ℕ :=
    if targetUnit = .mm then
      (distanceMm,
        if distanceMm < 1 then 3 else if distanceMm < 10 then 2
        else if distanceMm < 100 then 1 else 0)
    else
      (distance, if distance < 1 then 3 else 2)
  let pre := (if isApproximate then "≈ " else "") ++
    (match type with
     | .DIAMETER => "Ø"
     | .RADIUS => "R"
     | .LINEAR => "")
  { value := valueDigits.1, fractionDigits := valueDigits.2,
    unit := targetUnit, prefixText := pre }

/-- The unit returned by `formatLength`, in closed form. -/
theorem formatLength_unit (distance : ℚ) (currentUnit : MeasurementUnit)
    (type : MeasurementType) (isApproximate : Bool) :
    (formatLength distance currentUnit type isApproximate).unit =
      if currentUnit = .mm ∧ distance * 1000 > MM_TO_M_THRESHOLD then .m
      else if currentUnit = .m ∧ distance * 1000 < M_TO_MM_THRESHOLD then .mm
      else currentUnit := rfl

/-- Threading `formatLength` over a distance sequence, feeding each call the
unit returned by the previous one, collecting the displayed units. -/
def formatLengthSeq (startUnit : MeasurementUnit) (distances : List ℚ) :
    List MeasurementUnit :=
  (distances.foldl
    (fun (acc : List MeasurementUnit × MeasurementUnit) d =>
      let r := formatLength d acc.2 .LINEAR false
      (acc.1 ++ [r.unit], r.unit))
    ([], startUnit)).1

end MeasurementFormatter

/-- Claim C3: `formatLength` switches mm→m exactly when the distance exceeds
1200 mm and m→mm exactly when it is below 800 mm (the cm unit never
switches), and the sequence 999 mm, 1210 mm, 999 mm, 790 mm (each call fed
the previous call's unit, starting in mm) displays mm, m, m, mm. -/
theorem formatLength_hysteresis :
    (∀ (d : ℚ) (u : MeasurementUnit) (t : MeasurementType) (a : Bool),
        (MeasurementFormatter.formatLength d u t a).unit ≠ u ↔
          (u = .mm ∧ d * 1000 > 1200) ∨ (u = .m ∧ d * 1000 < 800)) ∧
      MeasurementFormatter.formatLengthSeq .mm [999/1000, 121/100, 999/1000, 79/100] =
        [.mm, .m, .m, .mm] := by
  constructor
  · intro d u t a
    rw [MeasurementFormatter.formatLength_unit]
    rw [MeasurementFormatter.MM_TO_M_THRESHOLD, MeasurementFormatter.M_TO_MM_THRESHOLD]
    split_ifs with h1 h2
    · obtain ⟨rfl, hgt⟩ := h1
      simp [hgt]
    · obtain ⟨rfl, hlt⟩ := h2
      simp [hlt]
    · constructor
      · intro hne
        exact absurd rfl hne
      · rintro (⟨rfl, hgt⟩ | ⟨rfl, hlt⟩)
        · exact absurd ⟨rfl, hgt⟩ h1
        · exact absurd ⟨rfl, hlt⟩ h2
  · decide

/-! ### Snap detection (`SnapDetector.ts`) and `MeasurementTool.buildSnapStructures` -/

/-- A mesh reference as carried by snap records (`Mesh`): identified here
only by its own `visible` flag, which is all the snapping code reads. -/
structure MeshRef where
  visible : Bool
deriving DecidableEq, Repr

/-- The `data` object a vertex record may carry (`vertex.data?.mesh`). -/
structure VertexData where
  mesh : Option MeshRef
deriving DecidableEq, Repr

/-- `SnapMode` of `MeasurementTypes.ts`. -/
inductive SnapMode where
  | VERTEX
  | EDGE
  | FACE
  | HOLE_EDGE
deriving DecidableEq, Repr

/-- The `Edge` record of `SnapDetector.ts`: world endpoints, optional owning
mesh, optional index (`end` is a Lean keyword, hence `endp`). -/
structure Edge where
  start : Vec3
  endp : Vec3
  mesh : Option MeshRef
  index : Option ℕ
deriving DecidableEq, Repr

/-- `SnapResult`, with the target's type left as a parameter (`any`). -/
structure SnapResult (τ : Type) where
  position : Vec3
  type : SnapMode
  target : τ
  distance : ℚ
deriving DecidableEq, Repr

/-- `vertex.data?.mesh`. -/
def vertexMeshOf (d : Option VertexData) : Option MeshRef :=
  match d with
  | some vd => vd.mesh
  | none => none

/-- The visibility test of both snap loops, as the kept-candidate predicate:
a record is skipped iff it carries a mesh whose own `visible` flag is false
(`if (mesh && !mesh.visible) continue`); no ancestor is consulted. -/
def meshVisibleOk (mesh : Option MeshRef) : Bool :=
  match mesh with
  | some mref => mref.visible
  | none => true

/-- One step of the `snapToVertex` loop: skip invisible-mesh records, then
keep the candidate with the smallest screen distance so far (the second
component starts at `radiusScreen` and only decreases). -/
def snapToVertexStep (screenDist : Vec3 → ℚ)
    (acc : Option (OctreeData (Option VertexData)) × ℚ)
    (vertex : OctreeData (Option VertexData)) :
    Option (OctreeData (Option VertexData)) × ℚ :=
  if !meshVisibleOk (vertexMeshOf vertex.data) then acc
  else
    let sd := screenDist vertex.position
    if sd < acc.2 then (some vertex, sd) else acc

/-- `SnapDetector.snapToVertex`: octree range query around the ray origin,
then the smallest-screen-distance visible candidate under `radiusScreen`. -/
def snapToVertex (sqrt : ℚ → ℚ) (screenDist : Vec3 → ℚ) (rayOrigin : Vec3)
    (octree : Octree (Option VertexData)) (radiusWorld radiusScreen : ℚ) :
    Option (SnapResult (Option VertexData)) :=
  let nearbyVertices := octree.findNearest rayOrigin radiusWorld
  if nearbyVertices.length = 0 then none
  else
    match (nearbyVertices.foldl (snapToVertexStep screenDist) (none, radiusScreen)).1 with
    | some closestVertex =>
        some { position := closestVertex.position, type := SnapMode.VERTEX,
               target := closestVertex.data,
               distance := sqrt (closestVertex.position.distanceToSquared rayOrigin) }
    | none => none

/-- The same selection loop with the visibility test removed, for comparison
against `snapToVertex` on structures whose records carry no mesh. -/
def snapToVertexStepUnfiltered (screenDist : Vec3 → ℚ)
    (acc : Option (OctreeData (Option VertexData)) × ℚ)
    (vertex : OctreeData (Option VertexData)) :
    Option (OctreeData (Option VertexData)) × ℚ :=
  let sd := screenDist vertex.position
  if sd < acc.2 then (some vertex, sd) else acc

/-- Three.js `Line3.closestPointToPoint(point, clampToLine = true)`.
(For a degenerate segment the source divides by zero and propagates NaN;
here `x / 0 = 0` yields the start point instead.) -/
def closestPointToPoint (start endp point : Vec3) : Vec3 :=
  let startEnd := endp - start
  let t := clamp (Vec3.dot (point - start) startEnd / Vec3.dot startEnd startEnd) 0 1
  start + t • startEnd

/-- One step of the `snapToEdge` loop: skip edges of invisible meshes, then
accept an edge when its closest point projects within the screen threshold
and its world distance to the ray origin beats the best so far
(`Infinity` start modelled by the `none` accumulator). -/
def snapToEdgeStep (sqrt : ℚ → ℚ) (screenDist : Vec3 → ℚ) (rayOrigin : Vec3)
    (thresholdScreen : ℚ) (acc : Option (Vec3 × ℚ × Edge)) (edge : Edge) :
    Option (Vec3 × ℚ × Edge) :=
  if !meshVisibleOk edge.mesh then acc
  else
    let pointOnLine := closestPointToPoint edge.start edge.endp rayOrigin
    let distance := sqrt (pointOnLine.distanceToSquared rayOrigin)
    let screenD := screenDist pointOnLine
    let beats : Bool :=
      match acc with
      | none => true
      | some (_, minDistance, _) => decide (distance < minDistance)
    if decide (screenD < thresholdScreen) && beats then some (pointOnLine, distance, edge)
    else acc

/-- `SnapDetector.snapToEdge`. -/
def snapToEdge (sqrt : ℚ → ℚ) (screenDist : Vec3 → ℚ) (rayOrigin : Vec3)
    (edges : List Edge) (thresholdScreen : ℚ) : Option (SnapResult Edge) :=
  match edges.foldl (snapToEdgeStep sqrt screenDist rayOrigin thresholdScreen) none with
  | some (closestPoint, minDistance, closestEdge) =>
      some { position := closestPoint, type := SnapMode.EDGE,
             target := closestEdge, distance := minDistance }
  | none => none

/-- Mesh geometry as the snapping code reads it: the position attribute and
the optional index buffer. -/
structure MeshGeometry where
  positionsAttr : List Vec3
  indexAttr : Option (List ℕ)

/-- A host scene node (`Object3D`/`Mesh`): own visibility flag, world
transform (abstracted as a point map), geometry, children. -/
inductive SceneNode where
  | mk (isMesh : Bool) (visible : Bool) (matrixWorld : Vec3 → Vec3)
      (geometry : MeshGeometry) (children : List SceneNode)

def SceneNode.isMesh : SceneNode → Bool
  | .mk b _ _ _ _ => b

def SceneNode.visible : SceneNode → Bool
  | .mk _ v _ _ _ => v

def SceneNode.matrixWorld : SceneNode → Vec3 → Vec3
  | .mk _ _ f _ _ => f

def SceneNode.geometry : SceneNode → MeshGeometry
  | .mk _ _ _ g _ => g

def SceneNode.children : SceneNode → List SceneNode
  | .mk _ _ _ _ cs => cs

mutual

/-- `Object3D.traverse` visit order (the node, then its children
recursively); visibility is NOT consulted during traversal. -/
def traverseCollect : SceneNode → List SceneNode
  | .mk im v mw g cs => .mk im v mw g cs :: traverseCollectList cs

def traverseCollectList : List SceneNode → List SceneNode
  | [] => []
  | c :: cs => traverseCollect c ++ traverseCollectList cs

end

/-- Reading `positions.getX(i)`/`getY`/`getZ` (out-of-range reads, which the
source would turn into NaN on a malformed buffer, default to the origin). -/
def attrGet (positions : List Vec3) (i : ℕ) : Vec3 := positions.getD i ⟨0, 0, 0⟩

/-- The triangles of an index buffer (`for (i; i < len; i += 3)`). -/
def triangleTriples : List ℕ → List (ℕ × ℕ × ℕ)
  | a :: b :: c :: rest => (a, b, c) :: triangleTriples rest
  | _ => []

/-- The canonical undirected edge key `a < b ? a-b : b-a`. -/
def edgeKey (a b : ℕ) : ℕ × ℕ := if a < b then (a, b) else (b, a)

/-- All (multi-)edge keys of a geometry's triangles, in iteration order. -/
def triangleEdgeKeys (indices : List ℕ) : List (ℕ × ℕ) :=
  ((triangleTriples indices).map fun t =>
    [edgeKey t.1 t.2.1, edgeKey t.2.1 t.2.2, edgeKey t.2.2 t.1]).flatten

/-- Deduplication in first-occurrence order (the `Set`/`Map` key order). -/
def dedupKeys (keys : List (ℕ × ℕ)) : List (ℕ × ℕ) :=
  keys.foldl (fun acc k => if k ∈ acc then acc else acc ++ [k]) []

/-- `SnapDetector.extractEdges`: each triangle contributes its three edges,
deduplicated by endpoint-index pair; records carry endpoints and a running
index but no mesh reference. -/
def extractEdges (geometry : MeshGeometry) : List Edge :=
  match geometry.indexAttr with
  | none => []
  | some indices =>
      (dedupKeys (triangleEdgeKeys indices)).enum.map fun ik =>
        { start := attrGet geometry.positionsAttr ik.2.1,
          endp := attrGet geometry.positionsAttr ik.2.2,
          mesh := none, index := some ik.1 }

/-- `SnapDetector.detectHoles`: edges referenced by exactly one triangle,
in first-occurrence key order; records carry no mesh reference. -/
def detectHoles (geometry : MeshGeometry) : List Edge :=
  match geometry.indexAttr with
  | none => []
  | some indices =>
      let keys := triangleEdgeKeys indices
      ((dedupKeys keys).filter fun k => keys.count k = 1).enum.map fun ik =>
        { start := attrGet geometry.positionsAttr ik.2.1,
          endp := attrGet geometry.positionsAttr ik.2.2,
          mesh := none, index := some ik.1 }

/-- `MeasurementTool.calculateBoundingBox`: bounding box of a point set
expanded by `0.1` (the empty case is unreachable behind the caller's
emptiness guard; three.js would give the inverted infinite box). -/
def calculateBoundingBox (points : List Vec3) : Box3 :=
  match points with
  | [] => ⟨⟨0, 0, 0⟩, ⟨0, 0, 0⟩⟩
  | p :: rest => (rest.foldl Box3.expandByPoint ⟨p, p⟩).expandByScalar (1 / 10)

/-- The snap acceleration structures built by
`MeasurementTool.buildSnapStructures`. -/
structure SnapStructures where
  edges : List Edge
  holeEdges : List Edge
  octree : Option (Octree (Option VertexData))

/-- `MeasurementTool.buildSnapStructures`: collect world-space vertices and
edges of every mesh in the hierarchy (visible or not), then build one global
octree over all vertices.  Vertices are inserted with `null` data and edge
records carry no mesh reference. -/
def buildSnapStructures (model : SceneNode) : SnapStructures :=
  let meshes := (traverseCollect model).filter SceneNode.isMesh
  let allWorldVertices :=
    (meshes.map fun mesh => mesh.geometry.positionsAttr.map mesh.matrixWorld).flatten
  let edgesRaw :=
    (meshes.map fun mesh => (extractEdges mesh.geometry).map fun e =>
      ({ start := mesh.matrixWorld e.start, endp := mesh.matrixWorld e.endp,
         mesh := none, index := none } : Edge)).flatten
  let holeEdgesRaw :=
    (meshes.map fun mesh => (detectHoles mesh.geometry).map fun e =>
      ({ start := mesh.matrixWorld e.start, endp := mesh.matrixWorld e.endp,
         mesh := none, index := none } : Edge)).flatten
  let edges := edgesRaw.enum.map fun ie => { ie.2 with index := some ie.1 }
  let holeEdges := holeEdgesRaw.enum.map fun ie => { ie.2 with index := some ie.1 }
  if allWorldVertices.length = 0 then
    { edges := edges, holeEdges := holeEdges, octree := none }
  else
    { edges := edges, holeEdges := holeEdges,
      octree := some (allWorldVertices.foldl (fun t v => t.insert v none)
        (Octree.create (Option VertexData) (calculateBoundingBox allWorldVertices) 8 8)) }

/-- An edge competes in `snapToEdge`: its mesh (if any) is visible and the
closest point of its segment to the ray origin projects within the screen
threshold of the cursor. -/
def edgeQualifies (screenDist : Vec3 → ℚ) (rayOrigin : Vec3) (thresholdScreen : ℚ)
    (edge : Edge) : Prop :=
  meshVisibleOk edge.mesh = true ∧
    screenDist (closestPointToPoint edge.start edge.endp rayOrigin) < thresholdScreen

instance (screenDist : Vec3 → ℚ) (rayOrigin : Vec3) (thresholdScreen : ℚ) (edge : Edge) :
    Decidable (edgeQualifies screenDist rayOrigin thresholdScreen edge) :=
  inferInstanceAs (Decidable (_ ∧ _))

/-- Invariant of the `snapToEdge` accumulator: a kept candidate is a
qualifying edge satisfying `P`, with its stored point and distance derived
from it. -/
def snapAccOk (sqrt : ℚ → ℚ) (screenDist : Vec3 → ℚ) (rayOrigin : Vec3)
    (thresholdScreen : ℚ) (P : Edge → Prop) : Option (Vec3 × ℚ × Edge) → Prop
  | none => True
  | some (pos, d, edge) =>
      P edge ∧ edgeQualifies screenDist rayOrigin thresholdScreen edge ∧
        pos = closestPointToPoint edge.start edge.endp rayOrigin ∧
        d = sqrt (pos.distanceToSquared rayOrigin)

/-- The distance stored in the accumulator (`none` standing for Infinity). -/
def accDistOf : Option (Vec3 × ℚ × Edge) → Option ℚ
  | none => none
  | some (_, d, _) => some d

/-- Order on optional distances with `none` as Infinity. -/
def optDistLE : Option ℚ → Option ℚ → Prop
  | _, none => True
  | none, some _ => False
  | some x, some y => x ≤ y

theorem optDistLE_refl (a : Option ℚ) : optDistLE a a := by
  cases a with
  | none => trivial
  | some x => exact le_refl x

theorem optDistLE_trans {a b c : Option ℚ} (h1 : optDistLE a b) (h2 : optDistLE b c) :
    optDistLE a c := by
  cases a <;> cases b <;> cases c <;> simp_all [optDistLE]
  exact le_trans h1 h2

theorem snapToEdgeStep_accOk (sqrt : ℚ → ℚ) (screenDist : Vec3 → ℚ) (rayOrigin : Vec3)
    (thresholdScreen : ℚ) (P : Edge → Prop) (acc : Option (Vec3 × ℚ × Edge)) (edge : Edge)
    (hacc : snapAccOk sqrt screenDist rayOrigin thresholdScreen P acc) (hP : P edge) :
    snapAccOk sqrt screenDist rayOrigin thresholdScreen P
      (snapToEdgeStep sqrt screenDist rayOrigin thresholdScreen acc edge) := by
  unfold snapToEdgeStep
  by_cases hv : meshVisibleOk edge.mesh
  · simp only [hv, Bool.not_true, Bool.false_eq_true, ite_false]
    cases acc with
    | none =>
      by_cases hsd : screenDist (closestPointToPoint edge.start edge.endp rayOrigin) <
          thresholdScreen
      · rw [if_pos (by simp [hsd])]
        exact ⟨hP, ⟨hv, hsd⟩, rfl, rfl⟩
      · rw [if_neg (by simp [hsd])]
        trivial
    | some pde =>
      obtain ⟨pos, d0, e0⟩ := pde
      by_cases hsd : screenDist (closestPointToPoint edge.start edge.endp rayOrigin) <
          thresholdScreen
      · by_cases hd : sqrt ((closestPointToPoint edge.start edge.endp
            rayOrigin).distanceToSquared rayOrigin) < d0
        · rw [if_pos (by simp [hsd, hd])]
          exact ⟨hP, ⟨hv, hsd⟩, rfl, rfl⟩
        · rw [if_neg (by simp [hsd, hd])]
          exact hacc
      · rw [if_neg (by simp [hsd])]
        exact hacc
  · simp only [Bool.not_eq_true] at hv
    simp [hv, hacc]

theorem snapToEdge_foldl_accOk (sqrt : ℚ → ℚ) (screenDist : Vec3 → ℚ) (rayOrigin : Vec3)
    (thresholdScreen : ℚ) (P : Edge → Prop) :
    ∀ (l : List Edge) (acc : Option (Vec3 × ℚ × Edge)),
      (∀ e ∈ l, P e) →
      snapAccOk sqrt screenDist rayOrigin thresholdScreen P acc →
      snapAccOk sqrt screenDist rayOrigin thresholdScreen P
        (l.foldl (snapToEdgeStep sqrt screenDist rayOrigin thresholdScreen) acc) := by
  intro l
  induction l with
  | nil => intro acc _ hacc; exact hacc
  | cons e l ih =>
    intro acc hl hacc
    exact ih _ (fun x hx => hl x (List.mem_cons_of_mem e hx))
      (snapToEdgeStep_accOk sqrt screenDist rayOrigin thresholdScreen P acc e hacc
        (hl e (List.mem_cons_self e l)))

theorem snapToEdgeStep_dist_le (sqrt : ℚ → ℚ) (screenDist : Vec3 → ℚ) (rayOrigin : Vec3)
    (thresholdScreen : ℚ) (acc : Option (Vec3 × ℚ × Edge)) (edge : Edge) :
    optDistLE (accDistOf (snapToEdgeStep sqrt screenDist rayOrigin thresholdScreen acc edge))
      (accDistOf acc) := by
  unfold snapToEdgeStep
  by_cases hv : meshVisibleOk edge.mesh
  · simp only [hv, Bool.not_true, Bool.false_eq_true, ite_false]
    cases acc with
    | none =>
      by_cases hsd : screenDist (closestPointToPoint edge.start edge.endp rayOrigin) <
          thresholdScreen
      · rw [if_pos (by simp [hsd])]; trivial
      · rw [if_neg (by simp [hsd])]; trivial
    | some pde =>
      obtain ⟨pos, d0, e0⟩ := pde
      by_cases hsd : screenDist (closestPointToPoint edge.start edge.endp rayOrigin) <
          thresholdScreen
      · by_cases hd : sqrt ((closestPointToPoint edge.start edge.endp
            rayOrigin).distanceToSquared rayOrigin) < d0
        · rw [if_pos (by simp [hsd, hd])]
          exact le_of_lt hd
        · rw [if_neg (by simp [hsd, hd])]
          exact optDistLE_refl _
      · rw [if_neg (by simp [hsd])]
        exact optDistLE_refl _
  · simp only [Bool.not_eq_true] at hv
    simp only [hv, Bool.not_false, ite_true]
    exact optDistLE_refl _

theorem snapToEdge_foldl_dist_le (sqrt : ℚ → ℚ) (screenDist : Vec3 → ℚ) (rayOrigin : Vec3)
    (thresholdScreen : ℚ) :
    ∀ (l : List Edge) (acc : Option (Vec3 × ℚ × Edge)),
      optDistLE
        (accDistOf (l.foldl (snapToEdgeStep sqrt screenDist rayOrigin thresholdScreen) acc))
        (accDistOf acc) := by
  intro l
  induction l with
  | nil => intro acc; exact optDistLE_refl _
  | cons e l ih =>
    intro acc
    exact optDistLE_trans (ih _)
      (snapToEdgeStep_dist_le sqrt screenDist rayOrigin thresholdScreen acc e)

theorem snapToEdge_foldl_min (sqrt : ℚ → ℚ) (screenDist : Vec3 → ℚ) (rayOrigin : Vec3)
    (thresholdScreen : ℚ) :
    ∀ (l : List Edge) (acc : Option (Vec3 × ℚ × Edge)) (edge : Edge),
      edge ∈ l → edgeQualifies screenDist rayOrigin thresholdScreen edge →
      optDistLE
        (accDistOf (l.foldl (snapToEdgeStep sqrt screenDist rayOrigin thresholdScreen) acc))
        (some (sqrt ((closestPointToPoint edge.start edge.endp rayOrigin).distanceToSquared
          rayOrigin))) := by
  intro l
  induction l with
  | nil => intro acc edge h; cases h
  | cons e l ih =>
    intro acc edge hmem hq
    rcases List.mem_cons.1 hmem with rfl | hmem'
    · rw [List.foldl_cons]
      have hstep : optDistLE
          (accDistOf (snapToEdgeStep sqrt screenDist rayOrigin thresholdScreen acc edge))
          (some (sqrt ((closestPointToPoint edge.start edge.endp rayOrigin).distanceToSquared
            rayOrigin))) := by
        unfold snapToEdgeStep
        simp only [hq.1, Bool.not_true, Bool.false_eq_true, ite_false]
        cases acc with
        | none =>
          rw [if_pos (by simp [hq.2])]
          exact le_refl _
        | some pde =>
          obtain ⟨pos, d0, e0⟩ := pde
          by_cases hd : sqrt ((closestPointToPoint edge.start edge.endp
              rayOrigin).distanceToSquared rayOrigin) < d0
          · rw [if_pos (by simp [hq.2, hd])]
            exact le_refl _
          · rw [if_neg (by simp [hd])]
            exact le_of_not_lt hd
      exact optDistLE_trans (snapToEdge_foldl_dist_le sqrt screenDist rayOrigin
        thresholdScreen l _) hstep
    · exact ih _ edge hmem' hq

theorem distanceToSquared_nonneg (a b : Vec3) : 0 ≤ a.distanceToSquared b := by
  simp only [Vec3.distanceToSquared]
  positivity

/-- Two concrete edges: edge A's closest point has the smaller on-screen
distance, edge B's the smaller world distance to the ray origin. -/
def edgeA : Edge := { start := ⟨3, 0, 0⟩, endp := ⟨4, 0, 0⟩, mesh := none, index := some 0 }

def edgeB : Edge := { start := ⟨0, 1, 0⟩, endp := ⟨0, 2, 0⟩, mesh := none, index := some 1 }

/-- Counterexample to claim C6 as stated: both edges pass the screen
threshold (5), edge A's on-screen distance (1) is smaller than edge B's (4),
yet `snapToEdge` accepts edge B — it minimises the 3D distance from the
closest segment point to the ray origin, not the on-screen distance. -/
theorem snapToEdge_screen_min_counterexample :
    snapToEdge id (fun p => 4 - p.x) ⟨0, 0, 0⟩ [edgeA, edgeB] 5 =
        some { position := ⟨0, 1, 0⟩, type := SnapMode.EDGE, target := edgeB,
               distance := 1 } ∧
      (4 - (closestPointToPoint edgeA.start edgeA.endp ⟨0, 0, 0⟩).x <
        4 - (closestPointToPoint edgeB.start edgeB.endp ⟨0, 0, 0⟩).x) ∧
      meshVisibleOk edgeA.mesh = true ∧
      (4 - (closestPointToPoint edgeA.start edgeA.endp ⟨0, 0, 0⟩).x < 5) := by
  refine ⟨?_, by decide, rfl, by decide⟩
  decide

/-- Claim C6, amended: among the visible edges whose closest point to the
ray origin projects within the screen threshold, `snapToEdge` accepts one,
and the accepted candidate minimises the 3D distance from that closest
point to the ray origin (not the on-screen distance). -/
theorem snapToEdge_accepts_min_world_distance (sqrt : ℚ → ℚ) (screenDist : Vec3 → ℚ)
    (rayOrigin : Vec3) (edges : List Edge) (thresholdScreen : ℚ)
    (res : SnapResult Edge)
    (hres : snapToEdge sqrt screenDist rayOrigin edges thresholdScreen = some res)
    (hsqrt : ∀ a b : ℚ, 0 ≤ a → 0 ≤ b → (sqrt a ≤ sqrt b ↔ a ≤ b)) :
    (res.target ∈ edges ∧ edgeQualifies screenDist rayOrigin thresholdScreen res.target ∧
        res.position = closestPointToPoint res.target.start res.target.endp rayOrigin ∧
        res.distance = sqrt (res.position.distanceToSquared rayOrigin)) ∧
      ∀ edge ∈ edges, edgeQualifies screenDist rayOrigin thresholdScreen edge →
        res.position.distanceToSquared rayOrigin ≤
          (closestPointToPoint edge.start edge.endp rayOrigin).distanceToSquared rayOrigin := by
  unfold snapToEdge at hres
  set final := edges.foldl (snapToEdgeStep sqrt screenDist rayOrigin thresholdScreen) none
    with hfinal
  have hAcc : snapAccOk sqrt screenDist rayOrigin thresholdScreen (· ∈ edges) final :=
    snapToEdge_foldl_accOk sqrt screenDist rayOrigin thresholdScreen (· ∈ edges) edges none
      (fun _ h => h) trivial
  cases hf : final with
  | none => rw [hf] at hres; cases hres
  | some pde =>
    obtain ⟨pos, d, edge0⟩ := pde
    rw [hf] at hres
    have hres' : res = SnapResult.mk pos SnapMode.EDGE edge0 d := by
      cases hres; rfl
    rw [hf] at hAcc
    obtain ⟨hmem, hq, hpos, hd⟩ := hAcc
    subst hres'
    refine ⟨⟨hmem, hq, hpos, hd⟩, ?_⟩
    intro edge hedge hqe
    have hmin := snapToEdge_foldl_min sqrt screenDist rayOrigin thresholdScreen edges none
      edge hedge hqe
    rw [← hfinal, hf] at hmin
    have hle : d ≤ sqrt ((closestPointToPoint edge.start edge.endp
        rayOrigin).distanceToSquared rayOrigin) := hmin
    rw [hd] at hle
    exact (hsqrt _ _ (distanceToSquared_nonneg _ _) (distanceToSquared_nonneg _ _)).1 hle

/-- Witness for `snapToEdge_accepts_min_world_distance` on the concrete edge
pair, with `sqrt := id`. -/
theorem snapToEdge_accepts_min_world_distance_witness :
    (snapToEdge id (fun p => 4 - p.x) ⟨0, 0, 0⟩ [edgeA, edgeB] 5 =
        some { position := ⟨0, 1, 0⟩, type := SnapMode.EDGE, target := edgeB,
               distance := 1 } ∧
      (∀ a b : ℚ, 0 ≤ a → 0 ≤ b → (id a ≤ id b ↔ a ≤ b))) ∧
      ∀ edge ∈ [edgeA, edgeB],
        edgeQualifies (fun p => 4 - p.x) ⟨0, 0, 0⟩ 5 edge →
          (⟨0, 1, 0⟩ : Vec3).distanceToSquared ⟨0, 0, 0⟩ ≤
            (closestPointToPoint edge.start edge.endp ⟨0, 0, 0⟩).distanceToSquared ⟨0, 0, 0⟩ :=
  ⟨⟨by decide, fun a b _ _ => Iff.rfl⟩,
    (snapToEdge_accepts_min_world_distance id (fun p => 4 - p.x) ⟨0, 0, 0⟩ [edgeA, edgeB] 5
      { position := ⟨0, 1, 0⟩, type := SnapMode.EDGE, target := edgeB, distance := 1 }
      (by decide) (fun a b _ _ => Iff.rfl)).2⟩

/-- `snapToVertex` with the visibility test removed, for comparison on
structures whose vertex records carry no mesh reference. -/
def snapToVertexUnfiltered (sqrt : ℚ → ℚ) (screenDist : Vec3 → ℚ) (rayOrigin : Vec3)
    (octree : Octree (Option VertexData)) (radiusWorld radiusScreen : ℚ) :
    Option (SnapResult (Option VertexData)) :=
  let nearbyVertices := octree.findNearest rayOrigin radiusWorld
  if nearbyVertices.length = 0 then none
  else
    match (nearbyVertices.foldl (snapToVertexStepUnfiltered screenDist) (none, radiusScreen)).1 with
    | some closestVertex =>
        some { position := closestVertex.position, type := SnapMode.VERTEX,
               target := closestVertex.data,
               distance := sqrt (closestVertex.position.distanceToSquared rayOrigin) }
    | none => none

/-- `searchNode` only reports points stored in the subtree (or already in
the accumulator) — no well-formedness needed for this direction. -/
theorem mem_searchNode_sub (qp : Vec3) (rSq : ℚ) :
    ∀ (n : ℕ) (t : OctreeNode β n) (acc : List (OctreeData β)) (q : OctreeData β),
      q ∈ searchNode qp rSq n t acc → q ∈ acc ∨ q ∈ OctreeNode.storedPoints n t := by
  intro n
  induction n with
  | zero =>
    intro t acc q h
    cases t with
    | leaf b pts =>
      by_cases hp : rSq < (b.clampPoint qp).distanceToSquared qp
      · simp only [searchNode, hp, ite_true] at h
        exact Or.inl h
      · simp only [searchNode, hp, ite_false] at h
        rw [storedPoints_leaf]
        rcases List.mem_append.1 h with h' | h'
        · exact Or.inl h'
        · exact Or.inr (List.mem_of_mem_filter h')
  | succ m ih =>
    intro t acc q h
    cases t with
    | leaf b pts =>
      by_cases hp : rSq < (b.clampPoint qp).distanceToSquared qp
      · simp only [searchNode, hp, ite_true] at h
        exact Or.inl h
      · simp only [searchNode, hp, ite_false] at h
        rw [storedPoints_leaf]
        rcases List.mem_append.1 h with h' | h'
        · exact Or.inl h'
        · exact Or.inr (List.mem_of_mem_filter h')
    | node b c =>
      by_cases hp : rSq < (b.clampPoint qp).distanceToSquared qp
      · simp only [searchNode, hp, ite_true] at h
        exact Or.inl h
      · simp only [searchNode, hp, ite_false] at h
        have hfold : ∀ (l : List (Fin 8)) (acc : List (OctreeData β)) (q : OctreeData β),
            q ∈ l.foldl (fun acc i => searchNode qp rSq m (c i) acc) acc →
              q ∈ acc ∨ ∃ i ∈ l, q ∈ OctreeNode.storedPoints m (c i) := by
          intro l
          induction l with
          | nil => intro acc q h'; exact Or.inl h'
          | cons i l ihl =>
            intro acc q h'
            rcases ihl _ q h' with h'' | ⟨j, hj, h''⟩
            · rcases ih (c i) acc q h'' with h3 | h3
              · exact Or.inl h3
              · exact Or.inr ⟨i, List.mem_cons_self i l, h3⟩
            · exact Or.inr ⟨j, List.mem_cons_of_mem i hj, h''⟩
        rcases hfold (List.finRange 8) acc q h with h' | ⟨i, _, h'⟩
        · exact Or.inl h'
        · exact Or.inr (mem_storedPoints_node.2 ⟨i, h'⟩)

/-- `findNearest` only reports stored points. -/
theorem mem_findNearest_sub (t : Octree β) (point : Vec3) (radius : ℚ)
    (q : OctreeData β) (h : q ∈ t.findNearest point radius) :
    q ∈ OctreeNode.storedPoints t.maxDepth t.root := by
  unfold Octree.findNearest at h
  rw [List.mem_insertionSort] at h
  rcases mem_searchNode_sub point (radius * radius) t.maxDepth t.root [] q h with h' | h'
  · cases h'
  · exact h'

/-- Folding vertex inserts with `null` data keeps every stored datum `null`. -/
theorem stored_insert_vec_data_none :
    ∀ (vs : List Vec3) (t : Octree (Option VertexData)),
      (∀ q ∈ OctreeNode.storedPoints t.maxDepth t.root, q.data = none) →
      ∀ q ∈ OctreeNode.storedPoints
          (vs.foldl (fun t v => t.insert v none) t).maxDepth
          (vs.foldl (fun t v => t.insert v none) t).root, q.data = none := by
  intro vs
  induction vs with
  | nil => intro t h; exact h
  | cons v vs ih =>
    intro t h
    refine ih (t.insert v none) ?_
    intro q hq
    rcases stored_insertIntoNode_sub t.maxPointsPerNode t.maxDepth t.root ⟨v, none⟩ q hq
      with h' | h'
    · exact h q h'
    · rw [h']

/-- On a result list whose records all carry `null` data, the visibility
filter of `snapToVertex` never excludes anything. -/
theorem snapToVertex_eq_unfiltered_of_data_none (sqrt : ℚ → ℚ) (screenDist : Vec3 → ℚ)
    (rayOrigin : Vec3) (octree : Octree (Option VertexData)) (radiusWorld radiusScreen : ℚ)
    (h : ∀ q ∈ octree.findNearest rayOrigin radiusWorld, q.data = none) :
    snapToVertex sqrt screenDist rayOrigin octree radiusWorld radiusScreen =
      snapToVertexUnfiltered sqrt screenDist rayOrigin octree radiusWorld radiusScreen := by
  unfold snapToVertex snapToVertexUnfiltered
  have hfold : (octree.findNearest rayOrigin radiusWorld).foldl
      (snapToVertexStep screenDist) (none, radiusScreen) =
        (octree.findNearest rayOrigin radiusWorld).foldl
          (snapToVertexStepUnfiltered screenDist) (none, radiusScreen) :=
    List.foldl_ext _ _ _ fun acc v hv => by
      simp [snapToVertexStep, snapToVertexStepUnfiltered, h v hv, vertexMeshOf, meshVisibleOk]
  simp only []
  rw [hfold]

/-- Every record stored in the octree built by `buildSnapStructures` carries
`null` data (no mesh reference). -/
theorem buildSnap_octree_data_none (model : SceneNode) (t : Octree (Option VertexData))
    (ht : (buildSnapStructures model).octree = some t) :
    ∀ q ∈ OctreeNode.storedPoints t.maxDepth t.root, q.data = none := by
  unfold buildSnapStructures at ht
  dsimp only at ht
  rw [apply_ite SnapStructures.octree] at ht
  dsimp only at ht
  split at ht
  · cases ht
  · injection ht with ht
    subst ht
    refine stored_insert_vec_data_none _ _ ?_
    intro q hq
    rw [show (Octree.create (Option VertexData) _ 8 8).root =
      OctreeNode.leaf (calculateBoundingBox _) [] from rfl, storedPoints_leaf] at hq
    cases hq

theorem mem_reindex_mesh (raw : List Edge) (h : ∀ x ∈ raw, x.mesh = none) :
    ∀ e ∈ raw.enum.map fun ie => { ie.2 with index := some ie.1 }, e.mesh = none := by
  intro e he
  rcases List.mem_map.1 he with ⟨ie, hie, rfl⟩
  refine h ie.2 ?_
  have hsnd := List.enum_map_snd raw
  rw [← hsnd]
  exact List.mem_map.2 ⟨ie, hie, rfl⟩

theorem buildSnap_raw_mesh_none (meshes : List SceneNode) (f : MeshGeometry → List Edge) :
    ∀ x ∈ (meshes.map fun mesh => (f mesh.geometry).map fun e =>
        ({ start := mesh.matrixWorld e.start, endp := mesh.matrixWorld e.endp,
           mesh := none, index := none } : Edge)).flatten, x.mesh = none := by
  intro x hx
  simp only [List.mem_flatten, List.mem_map] at hx
  obtain ⟨l, ⟨mesh, _, rfl⟩, hx⟩ := hx
  obtain ⟨e, _, rfl⟩ := List.mem_map.1 hx
  rfl

/-- Every edge and hole-edge record kept by `buildSnapStructures` carries no
mesh reference. -/
theorem buildSnap_edges_mesh_none (model : SceneNode) :
    ∀ e ∈ (buildSnapStructures model).edges ++ (buildSnapStructures model).holeEdges,
      e.mesh = none := by
  intro e he
  unfold buildSnapStructures at he
  dsimp only at he
  rw [apply_ite SnapStructures.edges, apply_ite SnapStructures.holeEdges] at he
  dsimp only at he
  rw [ite_self, ite_self] at he
  rcases List.mem_append.1 he with h' | h'
  · exact mem_reindex_mesh _ (buildSnap_raw_mesh_none _ extractEdges) e h'
  · exact mem_reindex_mesh _ (buildSnap_raw_mesh_none _ detectHoles) e h'

/-- Claim C5, amended: `buildSnapStructures` does NOT retain mesh
references — vertex records are inserted with `null` data and edge/hole-edge
records carry no mesh — and the snap query checks only a record's own
mesh's `visible` flag (no ancestor walk); consequently, on structures built
by `buildSnapStructures`, `snapToVertex` behaves exactly as if there were no
visibility filter at all. -/
theorem buildSnap_no_mesh_refs_no_visibility_filtering (model : SceneNode) :
    (∀ t, (buildSnapStructures model).octree = some t →
        ∀ q ∈ OctreeNode.storedPoints t.maxDepth t.root, q.data = none) ∧
      (∀ e ∈ (buildSnapStructures model).edges ++ (buildSnapStructures model).holeEdges,
        e.mesh = none) ∧
      ∀ (sqrt : ℚ → ℚ) (screenDist : Vec3 → ℚ) (rayOrigin : Vec3)
        (radiusWorld radiusScreen : ℚ) (t : Octree (Option VertexData)),
        (buildSnapStructures model).octree = some t →
          snapToVertex sqrt screenDist rayOrigin t radiusWorld radiusScreen =
            snapToVertexUnfiltered sqrt screenDist rayOrigin t radiusWorld radiusScreen := by
  refine ⟨buildSnap_octree_data_none model, buildSnap_edges_mesh_none model, ?_⟩
  intro sqrt screenDist rayOrigin radiusWorld radiusScreen t ht
  refine snapToVertex_eq_unfiltered_of_data_none sqrt screenDist rayOrigin t
    radiusWorld radiusScreen ?_
  intro q hq
  exact buildSnap_octree_data_none model t ht q (mem_findNearest_sub t rayOrigin radiusWorld q hq)

/-- A hierarchy whose root is invisible but whose (only) mesh child is
itself visible. -/
def hiddenParentScene : SceneNode :=
  .mk false false id ⟨[], none⟩ [.mk true true id ⟨[⟨0, 0, 0⟩], none⟩ []]

/-- Counterexample to claim C5 as stated: the mesh sits under an invisible
ancestor, yet its vertex is returned by the snap query — the octree records
carry no mesh reference (`data = null`), so the visibility test never fires
and no ancestor chain is consulted. -/
theorem snapToVertex_invisible_ancestor_counterexample :
    hiddenParentScene.visible = false ∧
      (∀ c ∈ hiddenParentScene.children, c.isMesh = true ∧ c.visible = true) ∧
      ((buildSnapStructures hiddenParentScene).octree.map fun t =>
          snapToVertex id (fun _ => 0) ⟨0, 0, 0⟩ t 1 10) =
        some (some { position := ⟨0, 0, 0⟩, type := SnapMode.VERTEX, target := none,
                     distance := 0 }) := by
  refine ⟨rfl, ?_, ?_⟩
  · decide
  · decide

/-- The octree that `buildSnapStructures` builds over `hiddenParentScene`:
one vertex with `null` data, bounds expanded by 0.1. -/
def hiddenSceneOctree : Octree (Option VertexData) :=
  ⟨8, 8, .leaf ⟨⟨-(1/10), -(1/10), -(1/10)⟩, ⟨1/10, 1/10, 1/10⟩⟩ [⟨⟨0, 0, 0⟩, none⟩]⟩

/-- Witness for `buildSnap_no_mesh_refs_no_visibility_filtering` at the
concrete hidden-ancestor scene. -/
theorem buildSnap_no_mesh_refs_no_visibility_filtering_witness :
    ((buildSnapStructures hiddenParentScene).octree = some hiddenSceneOctree) ∧
      snapToVertex id (fun _ => 0) ⟨0, 0, 0⟩ hiddenSceneOctree 1 10 =
        snapToVertexUnfiltered id (fun _ => 0) ⟨0, 0, 0⟩ hiddenSceneOctree 1 10 :=
  ⟨rfl,
    (buildSnap_no_mesh_refs_no_visibility_filtering hiddenParentScene).2.2 id
      (fun _ => 0) ⟨0, 0, 0⟩ 1 10 hiddenSceneOctree rfl⟩
